import Mathlib

/-!
# Verification of the agentTrail durable step-execution engine

A shallow embedding, in Lean 4, of the core of the `agentTrail` repository:

* `src/agenttrail/idempotency.py` — the type-tagged canonical fingerprint
  (`_tagged`, `canonical_json`, `idem_key`);
* `src/agent_relay/runtime.py` — the `AgentSession` step-execution engine
  (claim/execute/finalize protocol, wait-for-existing, budget accounting,
  replay, compensation driver, session exit);
* `src/agent_relay/context.py` and `src/agent_runtime/tooling.py` — the
  ambient current-session slot and the pass-through step wrapper.

Modelling conventions:

* JSON-safe Python values are modelled by the inductive type `J`
  (`None`/`bool`/`int`/`str`/`list`-or-`tuple`/`dict`).  Python floats are
  outside the modelled value domain; monetary amounts (`total_cost`,
  `budget_limit`) are modelled as exact rationals `ℚ`.
* The database is modelled as an in-memory list of call rows plus an
  append-only event trace (`Ev`) recording inserts, user-function
  invocations and status updates; SQL `UNIQUE(run_id, tool_name,
  idempotency_key, phase)` becomes a membership test on that list.
  There is no `DELETE` statement anywhere in the source, so the only
  delete event constructor is never emitted.
* `uuid.uuid4()` call ids are modelled by a fresh counter.
* Exceptions are modelled by `Except`; the wall clock of the
  wait-for-existing poll loop is modelled by an explicit elapsed-time
  accumulator advanced by the poll interval.
* Rational arithmetic is written with the kernel-computable helpers
  `qAdd`/`qMul` (proved equal to `+`/`*`) so that concrete executions can
  be evaluated by `decide`.
-/

set_option autoImplicit false

namespace AgentTrail

/-! ## JSON-safe values -/

/-- JSON-safe Python values: `None`, `bool`, `int`, `str`, `list`/`tuple`,
`dict` (with string keys, in insertion order). -/
inductive J where
  | null : J
  | bool (b : Bool) : J
  | int (n : Int) : J
  | str (s : String) : J
  | arr (xs : List J) : J
  | obj (kvs : List (String × J)) : J

/-! ## `json.dumps` (the fragment used by the fingerprints)

`json.dumps(payload, sort_keys=True, ...)` over JSON-safe values:
keys are sorted at every level by code-point order, strings are escaped,
and the item / key-value separators and the `ensure_ascii` flag are
parameters (the two call sites in the source differ in them). -/

/-- Code-point comparison of strings, as Python `sorted` compares `str`. -/
def strLtB (a b : String) : Bool :=
  go a.data b.data
where
  go : List Char → List Char → Bool
    | [], [] => false
    | [], _ :: _ => true
    | _ :: _, [] => false
    | x :: xs, y :: ys =>
      if x.toNat < y.toNat then true
      else if y.toNat < x.toNat then false
      else go xs ys

/-- `a ≤ b` in code-point order. -/
def strLeB (a b : String) : Bool := !(strLtB b a)

/-- Stable insertion into a key-sorted association list. -/
def insertByKey (x : String × J) : List (String × J) → List (String × J)
  | [] => [x]
  | y :: ys => if strLeB x.1 y.1 then x :: y :: ys else y :: insertByKey x ys

/-- Stable sort of an association list by key, modelling Python's
`sorted` over `dict` keys / `json.dumps(sort_keys=True)`. -/
def sortByKey : List (String × J) → List (String × J)
  | [] => []
  | x :: xs => insertByKey x (sortByKey xs)

/-- Hex digit characters, lower case, as CPython emits them. -/
def hexDigitChar (n : Nat) : Char :=
  "0123456789abcdef".data.getD (n % 16) 'x'

/-- Four hex digits of a 16-bit value (for `\uXXXX` escapes). -/
def hex4 (n : Nat) : List Char :=
  [hexDigitChar (n >>> 12), hexDigitChar (n >>> 8), hexDigitChar (n >>> 4), hexDigitChar n]

/-- One character of a JSON string, escaped as `json.dumps` escapes it.
With `ensure_ascii=True` every character outside `0x20`–`0x7E` is written
as `\uXXXX` (a surrogate pair beyond the BMP); with `ensure_ascii=False`
only `"`, `\` and control characters are escaped. -/
def escapeChar (ensureAscii : Bool) (c : Char) : List Char :=
  let n := c.toNat
  if c = '"' then ['\\', '"']
  else if c = '\\' then ['\\', '\\']
  else if n = 8 then ['\\', 'b']
  else if n = 9 then ['\\', 't']
  else if n = 10 then ['\\', 'n']
  else if n = 12 then ['\\', 'f']
  else if n = 13 then ['\\', 'r']
  else if n < 32 then '\\' :: 'u' :: hex4 n
  else if ensureAscii && n > 126 then
    if n < 65536 then '\\' :: 'u' :: hex4 n
    else
      ('\\' :: 'u' :: hex4 (55296 + (n - 65536) / 1024)) ++
        ('\\' :: 'u' :: hex4 (56320 + (n - 65536) % 1024))
  else [c]

/-- A JSON string literal with quotes, as `json.dumps` renders it. -/
def quoteJsonString (ensureAscii : Bool) (s : String) : String :=
  "\"" ++ String.mk (s.data.map (escapeChar ensureAscii)).flatten ++ "\""

mutual

/-- Render a `J` value as `json.dumps` does, with the given separators
(`itemSep` between array/object items, `kvSep` between a key and its
value).  Keys must already be in the intended order; `sort_keys=True` is
modelled by applying `sortKeysJson` first. -/
def dumpJson (ea : Bool) (itemSep kvSep : String) : J → String
  | .null => "null"
  | .bool true => "true"
  | .bool false => "false"
  | .int n => toString n
  | .str s => quoteJsonString ea s
  | .arr xs => "[" ++ dumpJsonList ea itemSep kvSep xs ++ "]"
  | .obj kvs => "\x7b" ++ dumpJsonObj ea itemSep kvSep kvs ++ "\x7d"

def dumpJsonList (ea : Bool) (itemSep kvSep : String) : List J → String
  | [] => ""
  | [x] => dumpJson ea itemSep kvSep x
  | x :: y :: xs =>
      dumpJson ea itemSep kvSep x ++ itemSep ++ dumpJsonList ea itemSep kvSep (y :: xs)

def dumpJsonObj (ea : Bool) (itemSep kvSep : String) : List (String × J) → String
  | [] => ""
  | [(k, v)] => quoteJsonString ea k ++ kvSep ++ dumpJson ea itemSep kvSep v
  | (k, v) :: p :: kvs =>
      quoteJsonString ea k ++ kvSep ++ dumpJson ea itemSep kvSep v ++ itemSep ++
        dumpJsonObj ea itemSep kvSep (p :: kvs)

end

mutual

/-- Recursively sort every object's keys, modelling `sort_keys=True`. -/
def sortKeysJson : J → J
  | .null => .null
  | .bool b => .bool b
  | .int n => .int n
  | .str s => .str s
  | .arr xs => .arr (sortKeysList xs)
  | .obj kvs => .obj (sortByKey (sortKeysObj kvs))

def sortKeysList : List J → List J
  | [] => []
  | x :: xs => sortKeysJson x :: sortKeysList xs

def sortKeysObj : List (String × J) → List (String × J)
  | [] => []
  | (k, v) :: kvs => (k, sortKeysJson v) :: sortKeysObj kvs

end

/-! ## SHA-256 (`hashlib.sha256(...).hexdigest()`)

A direct executable model of FIPS 180-4 SHA-256 over byte lists, with
32-bit words as `Nat` reduced mod `2^32`. -/

/-- Truncate to a 32-bit word. -/
def w32 (n : Nat) : Nat := n % 4294967296

/-- Rotate a 32-bit word right by `k`. -/
def rotr32 (k x : Nat) : Nat := w32 ((x >>> k) ||| (x <<< (32 - k)))

def sigma0 (x : Nat) : Nat := (rotr32 7 x ^^^ rotr32 18 x) ^^^ (x >>> 3)

def sigma1 (x : Nat) : Nat := (rotr32 17 x ^^^ rotr32 19 x) ^^^ (x >>> 10)

def bigSigma0 (x : Nat) : Nat := (rotr32 2 x ^^^ rotr32 13 x) ^^^ rotr32 22 x

def bigSigma1 (x : Nat) : Nat := (rotr32 6 x ^^^ rotr32 11 x) ^^^ rotr32 25 x

def chFn (x y z : Nat) : Nat := (x &&& y) ^^^ ((x ^^^ 4294967295) &&& z)

def majFn (x y z : Nat) : Nat := ((x &&& y) ^^^ (x &&& z)) ^^^ (y &&& z)

/-- The 64 SHA-256 round constants. -/
def K256 : List Nat :=
  [1116352408, 1899447441, 3049323471, 3921009573, 961987163, 1508970993,
   2453635748, 2870763221, 3624381080, 310598401, 607225278, 1426881987,
   1925078388, 2162078206, 2614888103, 3248222580, 3835390401, 4022224774,
   264347078, 604807628, 770255983, 1249150122, 1555081692, 1996064986,
   2554220882, 2821834349, 2952996808, 3210313671, 3336571891, 3584528711,
   113926993, 338241895, 666307205, 773529912, 1294757372, 1396182291,
   1695183700, 1986661051, 2177026350, 2456956037, 2730485921, 2820302411,
   3259730800, 3345764771, 3516065817, 3600352804, 4094571909, 275423344,
   430227734, 506948616, 659060556, 883997877, 958139571, 1322822218,
   1537002063, 1747873779, 1955562222, 2024104815, 2227730452, 2361852424,
   2428436474, 2756734187, 3204031479, 3329325298]

/-- The SHA-256 working state: eight 32-bit words. -/
structure Hash8 where
  a : Nat
  b : Nat
  c : Nat
  d : Nat
  e : Nat
  f : Nat
  g : Nat
  h : Nat

/-- Initial SHA-256 hash value. -/
def initH : Hash8 :=
  ⟨1779033703, 3144134277, 1013904242, 2773480762, 1359893119, 2600822924, 528734635, 1541459225⟩

/-- Extend the (reversed) message schedule by `n` further words;
`rev` holds `W_{t-1}, W_{t-2}, …, W_0`. -/
def scheduleRev (rev : List Nat) : Nat → List Nat
  | 0 => rev
  | n + 1 =>
    let w := w32 (sigma1 (rev.getD 1 0) + rev.getD 6 0 + sigma0 (rev.getD 14 0) + rev.getD 15 0)
    scheduleRev (w :: rev) n

/-- The 64-word message schedule of one 16-word block. -/
def msgSchedule (block : List Nat) : List Nat :=
  (scheduleRev block.reverse 48).reverse

/-- One SHA-256 compression round. -/
def sha256Round (st : Hash8) (kw : Nat × Nat) : Hash8 :=
  let t1 := w32 (st.h + bigSigma1 st.e + chFn st.e st.f st.g + kw.1 + kw.2)
  let t2 := w32 (bigSigma0 st.a + majFn st.a st.b st.c)
  ⟨w32 (t1 + t2), st.a, st.b, st.c, w32 (st.d + t1), st.e, st.f, st.g⟩

/-- Compress one 16-word block into the running hash. -/
def compressBlock (hs : Hash8) (block : List Nat) : Hash8 :=
  let r := (K256.zip (msgSchedule block)).foldl sha256Round hs
  ⟨w32 (hs.a + r.a), w32 (hs.b + r.b), w32 (hs.c + r.c), w32 (hs.d + r.d),
   w32 (hs.e + r.e), w32 (hs.f + r.f), w32 (hs.g + r.g), w32 (hs.h + r.h)⟩

/-- Big-endian bytes of a value, `n` bytes wide. -/
def beBytes (n v : Nat) : List Nat :=
  (List.range n).map fun i => (v >>> (8 * (n - 1 - i))) % 256

/-- SHA-256 padding: `0x80`, zeros to 56 mod 64, then the 64-bit
big-endian bit length. -/
def padMsg (m : List Nat) : List Nat :=
  let k := (119 - m.length % 64) % 64
  m ++ [128] ++ List.replicate k 0 ++ beBytes 8 (8 * m.length)

/-- Combine bytes into big-endian 32-bit words. -/
def bytesToWords : List Nat → List Nat
  | b0 :: b1 :: b2 :: b3 :: rest =>
      (b0 * 16777216 + b1 * 65536 + b2 * 256 + b3) :: bytesToWords rest
  | _ => []

/-- Split a list into chunks of `n` (the last may be short). -/
def chunksAux {α : Type} (n : Nat) : Nat → List α → List (List α)
  | 0, _ => []
  | _ + 1, [] => []
  | fuel + 1, xs => xs.take n :: chunksAux n fuel (xs.drop n)

def chunks {α : Type} (n : Nat) (xs : List α) : List (List α) :=
  chunksAux n xs.length xs

/-- The eight 32-bit words of the SHA-256 digest of a byte list. -/
def sha256Words (msg : List Nat) : List Nat :=
  let final := (chunks 64 (padMsg msg)).foldl (fun hs blk => compressBlock hs (bytesToWords blk)) initH
  [final.a, final.b, final.c, final.d, final.e, final.f, final.g, final.h]

/-- Eight lower-case hex digits of one 32-bit word. -/
def wordHex (w : Nat) : List Char :=
  [hexDigitChar (w >>> 28), hexDigitChar (w >>> 24), hexDigitChar (w >>> 20), hexDigitChar (w >>> 16),
   hexDigitChar (w >>> 12), hexDigitChar (w >>> 8), hexDigitChar (w >>> 4), hexDigitChar w]

/-- `hashlib.sha256(bytes).hexdigest()`: the 64-hex-character digest. -/
def sha256hex (msg : List Nat) : String :=
  String.mk ((sha256Words msg).map wordHex).flatten

/-- UTF-8 bytes of one character (`str.encode("utf-8")`). -/
def utf8Bytes (c : Char) : List Nat :=
  let n := c.toNat
  if n < 128 then [n]
  else if n < 2048 then [192 + n / 64, 128 + n % 64]
  else if n < 65536 then [224 + n / 4096, 128 + (n / 64) % 64, 128 + n % 64]
  else [240 + n / 262144, 128 + (n / 4096) % 64, 128 + (n / 64) % 64, 128 + n % 64]

/-- `s.encode("utf-8")` as a byte list. -/
def utf8Encode (s : String) : List Nat :=
  (s.data.map utf8Bytes).flatten

/-! ## `agenttrail/idempotency.py` -/

mutual

/-- `_tagged` from `src/agenttrail/idempotency.py`: recursively convert a
value into a JSON structure carrying a `__type__` tag at every leaf;
`list` and `tuple` both tag as `"list"`, `dict` keys are sorted. -/
def tagged : J → J
  | .null => .obj [("__type__", .str "NoneType"), ("value", .null)]
  | .bool b => .obj [("__type__", .str "bool"), ("value", .bool b)]
  | .int n => .obj [("__type__", .str "int"), ("value", .int n)]
  | .str s => .obj [("__type__", .str "str"), ("value", .str s)]
  | .arr xs => .obj [("__type__", .str "list"), ("value", .arr (taggedList xs))]
  | .obj kvs => .obj [("__type__", .str "dict"), ("value", .obj (sortByKey (taggedObj kvs)))]

def taggedList : List J → List J
  | [] => []
  | x :: xs => tagged x :: taggedList xs

def taggedObj : List (String × J) → List (String × J)
  | [] => []
  | (k, v) :: kvs => (k, tagged v) :: taggedObj kvs

end

/-- `canonical_json` from `src/agenttrail/idempotency.py`:
`json.dumps(_tagged(obj), separators=(",", ":"), sort_keys=True,
ensure_ascii=False)`. -/
def canonical_json (o : J) : String :=
  dumpJson false "," ":" (sortKeysJson (tagged o))

/-- The payload dict `{"ns": ..., "step": ..., "args": ..., "kwargs": ...}`
of `idem_key`. -/
def idemPayload (ns step : String) (args : List J) (kwargs : List (String × J)) : J :=
  .obj [("ns", .str ns), ("step", .str step), ("args", .arr args), ("kwargs", .obj kwargs)]

/-- `idem_key` from `src/agenttrail/idempotency.py`: the SHA-256 hex
digest of the canonical JSON of the payload. -/
def idem_key (ns step : String) (args : List J) (kwargs : List (String × J)) : String :=
  sha256hex (utf8Encode (canonical_json (idemPayload ns step args kwargs)))


/-! ## Kernel-computable rational helpers

`Rat.add` / `Rat.mul` are `@[irreducible]` in the ambient library, which
blocks `decide` on concrete executions; the model therefore uses these
equivalent computable forms (proved equal to `+` and `*` below). -/

/-- Rational addition via `mkRat` (equal to `+`, see `qAdd_eq`). -/
def qAdd (a b : ℚ) : ℚ := mkRat (a.num * b.den + b.num * a.den) (a.den * b.den)

/-- Rational multiplication via `mkRat` (equal to `*`, see `qMul_eq`). -/
def qMul (a b : ℚ) : ℚ := mkRat (a.num * b.num) (a.den * b.den)

/-- Python `round(x, 6)`: round to 6 decimal places, ties to even
(banker's rounding), idealized over exact rationals. -/
def round6 (q : ℚ) : ℚ :=
  let n : ℚ := qMul q (mkRat 1000000 1)
  let f : Int := n.floor
  let tf : Int := 2 * (n.num - f * (n.den : Int))
  let r : Int :=
    if tf > (n.den : Int) then f + 1
    else if tf < (n.den : Int) then f
    else if f % 2 = 0 then f else f + 1
  mkRat r 1000000

/-! ## The `agent_relay` data model -/

/-- The `phase` column: `"forward"` or `"compensation"`. -/
inductive Phase where
  | forward : Phase
  | compensation : Phase
deriving DecidableEq

/-- The string stored in the `phase` column. -/
def Phase.toName : Phase → String
  | .forward => "forward"
  | .compensation => "compensation"

/-- The `status` column of both runs and calls:
`"pending"`, `"success"` or `"error"`. -/
inductive Status where
  | pending : Status
  | success : Status
  | error : Status
deriving DecidableEq

def Status.toName : Status → String
  | .pending => "pending"
  | .success => "success"
  | .error => "error"

/-- Modelled from the spec: `LLMUsage` from `agent_relay/llm.py` (the file
is not in the source tree; the spec's glossary lists exactly these
fields: prompt/completion/total tokens and input/output/total cost). -/
structure LLMUsage where
  prompt_tokens : Nat := 0
  completion_tokens : Nat := 0
  total_tokens : Nat := 0
  input_cost : ℚ := 0
  output_cost : ℚ := 0
  total_cost : ℚ := 0

/-- One row of the `tool_calls` table (the columns the core reads or
writes; usage columns and timestamps are omitted as no claim concerns
them).  `id` models `uuid.uuid4()` by a fresh counter. -/
structure CallRow where
  id : Nat
  seq_no : Nat
  tool_name : String
  idempotency_key : String
  phase : Phase
  status : Status
  output : Option J := none
  error : Option String := none
  parent : Option Nat := none
  internal : Bool := false

/-- Observable database events, in execution order: the INSERT of a
pending claim row, the invocation of a user function, an UPDATE of a
row's status, and row deletion (which no code path ever performs —
`deleteCall` exists only so that "never deleted" is a statement about
the trace rather than about the missing constructor). -/
inductive Ev where
  | insertCall (id : Nat) (tool : String) (phase : Phase) (seq : Nat) (status : Status) : Ev
  | invokeFunc (tool : String) (phase : Phase) : Ev
  | updateStatus (id : Nat) (status : Status) : Ev
  | deleteCall (id : Nat) : Ev
deriving DecidableEq

/-- `ExecutedStep` from `src/agent_relay/runtime.py`: a frame pushed to
the compensation stack when a forward call claims its row. -/
structure ExecutedStep where
  tool_name : String
  compensation_tool_name : Option String
  args : List J
  kwargs : List (String × J)

/-- One record of a replay call list (the columns `_replay_step`
reads). -/
structure ReplayRec where
  tool_name : String
  phase : Phase
  status : Status
  output : Option J := none

/-- A user step function: positional args and keyword args to either a
result value or a raised exception's message. -/
def StepFn : Type := List J → List (String × J) → Except String J

/-- `AgentRuntime` from `src/agent_relay/runtime.py`: the tool registry,
compensation pairings and the wait-for-existing tunables
(`pending_timeout_s` default 60, `pending_poll_interval_s`
default 0.25). -/
structure AgentRuntime where
  tools : List (String × StepFn) := []
  compensations : List (String × String) := []
  pending_timeout_s : ℚ := mkRat 60 1
  pending_poll_interval_s : ℚ := mkRat 1 4

/-- `AgentRuntime.get_tool` (raising `KeyError` becomes `none`). -/
def getTool (rt : AgentRuntime) (name : String) : Option StepFn :=
  (rt.tools.find? fun p => decide (p.1 = name)).map Prod.snd

/-- The in-memory state of one `AgentSession` together with its run's
rows of the `tool_calls` table and the observable event trace. -/
structure SessionState where
  replay : Bool := false
  replay_calls : List ReplayRec := []
  replay_index : Nat := 0
  budget_limit : Option ℚ := none
  compensate_on_budget_exceeded : Bool := true
  total_prompt_tokens : Nat := 0
  total_completion_tokens : Nat := 0
  total_tokens : Nat := 0
  total_cost : ℚ := 0
  seq_no : Nat := 0
  executed_steps : List ExecutedStep := []
  calls : List CallRow := []
  events : List Ev := []
  next_id : Nat := 0
  status : Status := .pending
  error : Option String := none
  output_payload : Option J := none

/-- `AgentSession._is_budget_exceeded`: strictly above the cap; no cap
means never exceeded. -/
def isBudgetExceeded (s : SessionState) : Bool :=
  match s.budget_limit with
  | none => false
  | some b => decide (s.total_cost > b)

/-- `AgentSession._record_usage_totals`: fold one step's usage into the
session totals (`total_cost` with 6-decimal rounding) and report the
`BudgetExceededError` raised when the new total exceeds the cap. -/
def recordUsageTotals (s : SessionState) (u : LLMUsage) : SessionState × Option String :=
  let s' := { s with
    total_prompt_tokens := s.total_prompt_tokens + u.prompt_tokens
    total_completion_tokens := s.total_completion_tokens + u.completion_tokens
    total_tokens := s.total_tokens + u.total_tokens
    total_cost := round6 (qAdd s.total_cost u.total_cost) }
  if isBudgetExceeded s' then
    (s', some ("Budget cap exceeded: total_cost=" ++ toString s'.total_cost.num ++ "/" ++
      toString s'.total_cost.den ++ " limit set"))
  else (s', none)

/-- `AgentSession._compute_idempotency_key`:
`sha256(json.dumps({"tool", "phase", "args", "kwargs"}, sort_keys=True,
default=repr)).hexdigest()` — Python's default separators `", "` and
`": "` and `ensure_ascii=True`. -/
def computeIdempotencyKey (tool_name : String) (args : List J) (kwargs : List (String × J))
    (phase : Phase) : String :=
  sha256hex (utf8Encode (dumpJson true ", " ": " (sortKeysJson
    (.obj [("tool", .str tool_name), ("phase", .str phase.toName),
           ("args", .arr args), ("kwargs", .obj kwargs)]))))

/-- The `WHERE` clause shared by the UNIQUE constraint, `claim_call`'s
conflict check and `read_call` (all within one run). -/
def rowMatches (tool idem : String) (phase : Phase) (r : CallRow) : Bool :=
  decide (r.tool_name = tool) && decide (r.idempotency_key = idem) && decide (r.phase = phase)

/-- `SELECT ... FROM tool_calls WHERE run_id=. AND tool_name=. AND
idempotency_key=. AND phase=.`. -/
def findRow (calls : List CallRow) (tool idem : String) (phase : Phase) : Option CallRow :=
  calls.find? (rowMatches tool idem phase)
mutual

/-- `_serialize_json` from `src/agent_relay/runtime.py`: best-effort JSON
serialization of inputs/outputs.  On the JSON-safe domain `J` it rebuilds
the same structure (the `repr` fallback only fires outside `J`). -/
def serializeJsonValue : J → J
  | .null => .null
  | .bool b => .bool b
  | .int n => .int n
  | .str s => .str s
  | .arr xs => .arr (serializeJsonList xs)
  | .obj kvs => .obj (serializeJsonObj kvs)

def serializeJsonList : List J → List J
  | [] => []
  | x :: xs => serializeJsonValue x :: serializeJsonList xs

def serializeJsonObj : List (String × J) → List (String × J)
  | [] => []
  | (k, v) :: kvs => (k, serializeJsonValue v) :: serializeJsonObj kvs

end


/-! ## Errors -/

/-- The exceptions the engine can raise out of a step call (§7 of the
spec's taxonomy).  `replayMismatch` carries both (step, phase) pairs, as
the raised message names both. -/
inductive Err where
  | budgetExceeded (total : ℚ) (limit : Option ℚ) : Err
  | toolFailure (msg : String) : Err
  | priorAttemptFailed (msg : String) : Err
  | pendingTimeout (tool : String) (phase : Phase) : Err
  | rowMissing : Err
  | replayExceeded : Err
  | replayMismatch (expectedTool : String) (expectedPhase : Phase)
      (gotTool : String) (gotPhase : Phase) : Err
  | replayNotSuccess (st : Option Status) : Err

/-- `str(exc_value)` for the modelled exceptions (numeric formatting of
rationals stands in for Python float formatting). -/
def errMessage : Err → String
  | .budgetExceeded _ _ => "Budget cap exceeded"
  | .toolFailure m => m
  | .priorAttemptFailed m => "Prior attempt failed: " ++ m
  | .pendingTimeout tool phase =>
      "Timed out waiting for pending tool call: " ++ tool ++ "/" ++ phase.toName
  | .rowMissing => "Idempotent call exists but row could not be loaded"
  | .replayExceeded => "Replay exceeded recorded tool calls"
  | .replayMismatch et ep gt gp =>
      "Replay mismatch. Expected " ++ et ++ "/" ++ ep.toName ++ ", got " ++ gt ++ "/" ++ gp.toName
  | .replayNotSuccess st =>
      "Replayed tool call ended in status " ++ (st.map Status.toName).getD "None"

/-- Is this exception `BudgetExceededError`?  (`__exit__` tests
`exc_type is BudgetExceededError`.) -/
def Err.isBudget : Err → Bool
  | .budgetExceeded _ _ => true
  | _ => false

/-! ## Wait-for-existing (`AgentSession._wait_for_existing_call`) -/

/-- One iteration of the poll loop per entry of `reads` (the successive
results of `read_call`); `elapsed` is the wall-clock time since the
deadline was set, advanced by the poll interval per sleep.  `none` means
the trace was exhausted while the loop would still be polling. -/
def waitForExistingLoop (timeoutS interval : ℚ) (tool : String) (phase : Phase) :
    List (Option CallRow) → ℚ → Option (Except Err J)
  | [], _ => none
  | read :: rest, elapsed =>
    match read with
    | none => some (.error .rowMissing)
    | some row =>
      if row.status = .success then
        some (.ok ((row.output.map serializeJsonValue).getD .null))
      else if row.status = .error then
        some (.error (.priorAttemptFailed (row.error.getD "None")))
      else if decide (elapsed > timeoutS) then
        some (.error (.pendingTimeout tool phase))
      else
        waitForExistingLoop timeoutS interval tool phase rest (qAdd elapsed interval)

/-- Enough polls to reach the deadline: `⌊timeout/interval⌋ + 2` (the
loop times out at the first poll with `elapsed > timeout`, i.e. poll
number `⌊timeout/interval⌋ + 1`, counting from zero). -/
def waitFuel (timeoutS interval : ℚ) : Nat :=
  ((timeoutS.num * (interval.den : Int)).fdiv ((timeoutS.den : Int) * interval.num)).toNat + 2

/-! ## Replay (`AgentSession._replay_step`) -/

/-- `_replay_step`: read the record at the cursor, advance the cursor,
check (name, phase) and status, and return the recorded output without
invoking anything or writing anything. -/
def replayStep (s : SessionState) (tool_name : String) (phase : Phase) :
    SessionState × Except Err J :=
  match s.replay_calls.get? s.replay_index with
  | none => (s, .error .replayExceeded)
  | some record =>
    let s := { s with replay_index := s.replay_index + 1 }
    if record.tool_name ≠ tool_name ∨ record.phase ≠ phase then
      (s, .error (.replayMismatch tool_name phase record.tool_name record.phase))
    else if record.status ≠ .success then
      (s, .error (.replayNotSuccess (some record.status)))
    else
      (s, .ok (record.output.getD .null))

/-! ## The claim/execute protocol (`AgentSession.execute_tool_call`) -/

/-- `UPDATE tool_calls SET status='success', output_json=... WHERE id=.` -/
def finalizeSuccess (s : SessionState) (call_id : Nat) (out : J) : SessionState :=
  { s with
    calls := s.calls.map fun r =>
      if r.id = call_id then { r with status := .success, output := some (serializeJsonValue out) }
      else r
    events := s.events ++ [.updateStatus call_id .success] }

/-- `UPDATE tool_calls SET status='error', error=... WHERE id=.`
(Keeps `output_json` — the Python UPDATE does not touch it.) -/
def finalizeError (s : SessionState) (call_id : Nat) (msg : String) : SessionState :=
  { s with
    calls := s.calls.map fun r =>
      if r.id = call_id then { r with status := .error, error := some msg }
      else r
    events := s.events ++ [.updateStatus call_id .error] }

/-- The claim INSERT of `execute_tool_call` (runtime.py lines 330–375):
reserve `next_seq_no = seq_no + 1`, insert the pending row, and — the
insert having succeeded — advance the session's sequence number. -/
def claimInsert (s : SessionState) (tool_name idem : String) (phase : Phase)
    (parent : Option Nat) : SessionState :=
  let row : CallRow :=
    { id := s.next_id, seq_no := s.seq_no + 1, tool_name := tool_name,
      idempotency_key := idem, phase := phase, status := .pending, parent := parent }
  { s with
    calls := s.calls ++ [row]
    next_id := s.next_id + 1
    seq_no := s.seq_no + 1
    events := s.events ++ [.insertCall s.next_id tool_name phase (s.seq_no + 1) .pending] }

/-- Push the `ExecutedStep` frame for forward calls (lines 380–388). -/
def pushFrame (s : SessionState) (phase : Phase) (tool_name : String)
    (comp : Option String) (args : List J) (kwargs : List (String × J)) : SessionState :=
  if phase = .forward then
    { s with executed_steps := s.executed_steps ++ [⟨tool_name, comp, args, kwargs⟩] }
  else s

/-- Record that the user function body ran (line 392). -/
def markInvoked (s : SessionState) (tool_name : String) (phase : Phase) : SessionState :=
  { s with events := s.events ++ [.invokeFunc tool_name phase] }

/-- The wait-for-existing path taken on `IntegrityError`: poll the (in
sequential semantics, unchanged) row until it resolves or the deadline
passes. -/
def waitForDuplicate (rt : AgentRuntime) (s : SessionState) (tool idem : String)
    (phase : Phase) : Except Err J :=
  (waitForExistingLoop rt.pending_timeout_s rt.pending_poll_interval_s tool phase
    (List.replicate (waitFuel rt.pending_timeout_s rt.pending_poll_interval_s)
      (findRow s.calls tool idem phase)) 0).getD (.error (.pendingTimeout tool phase))

/-- `AgentSession.execute_tool_call` from `src/agent_relay/runtime.py`,
for a session that has entered its scope.  Sequential semantics: the
`IntegrityError` branch of the INSERT is taken exactly when a row with
the same `(tool_name, idempotency_key, phase)` already exists, and the
wait loop then polls that same unchanged table.  On the claimed path the
user function runs; on success the row is finalized to success **inside
the same try block** as the usage fold, so a `BudgetExceededError` from
`_record_usage_totals` falls into the generic except clause, which
overwrites the row to error and re-raises. -/
def executeToolCall (rt : AgentRuntime) (s : SessionState) (tool_name : String) (func : StepFn)
    (args : List J) (kwargs : List (String × J)) (phase : Phase)
    (compensation_tool_name : Option String) (parent : Option Nat)
    (usageFn : Option (J → LLMUsage)) (input_kwargs : Option (List (String × J))) :
    SessionState × Except Err J :=
  if s.replay then
    replayStep s tool_name phase
  else if phase = .forward ∧ isBudgetExceeded s then
    (s, .error (.budgetExceeded s.total_cost s.budget_limit))
  else
    let idem := computeIdempotencyKey tool_name args (input_kwargs.getD kwargs) phase
    match findRow s.calls tool_name idem phase with
    | some _ =>
      -- IntegrityError: another caller already claimed this idempotent
      -- call; do not advance the sequence, wait for the existing row.
      (s, waitForDuplicate rt s tool_name idem phase)
    | none =>
      let call_id := s.next_id
      let s2 := pushFrame (claimInsert s tool_name idem phase parent) phase tool_name
        compensation_tool_name args kwargs
      match func args kwargs with
      | .error emsg =>
        (finalizeError (markInvoked s2 tool_name phase) call_id emsg, .error (.toolFailure emsg))
      | .ok out =>
        let s4 := finalizeSuccess (markInvoked s2 tool_name phase) call_id out
        match usageFn with
        | none => (s4, .ok out)
        | some parser =>
          match recordUsageTotals s4 (parser out) with
          | (s5, none) => (s5, .ok out)
          | (s5, some msg) =>
            (finalizeError s5 call_id msg,
             .error (.budgetExceeded s5.total_cost s5.budget_limit))

/-! ## Compensation driver (`AgentSession._run_compensations`) -/

/-- The loop body of `_run_compensations` over the reversed frame list:
skip frames without a compensator name, resolve the compensator from the
registry (`KeyError` is swallowed by the bare except), execute it as a
`phase="compensation"` call, and swallow any exception so the remaining
frames are still visited. -/
def runCompensationsFrom (rt : AgentRuntime) : List ExecutedStep → SessionState → SessionState
  | [], s => s
  | frame :: rest, s =>
    match frame.compensation_tool_name with
    | none => runCompensationsFrom rt rest s
    | some cname =>
      match getTool rt cname with
      | none => runCompensationsFrom rt rest s
      | some comp_fn =>
        let (s', _) :=
          executeToolCall rt s cname comp_fn frame.args frame.kwargs .compensation
            none none none none
        runCompensationsFrom rt rest s'

/-- `_run_compensations`: walk `executed_steps` in reverse. -/
def runCompensations (rt : AgentRuntime) (s : SessionState) : SessionState :=
  runCompensationsFrom rt s.executed_steps.reverse s

/-! ## Session scope (`AgentSession.__enter__` / `__exit__`) -/

/-- The session state right after a non-replay `__enter__`: fresh run,
`status="pending"`, empty totals and stacks. -/
def sessionEnter (budget_limit : Option ℚ) (compensate_on_budget_exceeded : Bool) :
    SessionState :=
  { budget_limit := budget_limit
    compensate_on_budget_exceeded := compensate_on_budget_exceeded }

/-- A replay `__enter__` with a supplied call list (`replay_calls`). -/
def sessionEnterReplay (replay_calls : List ReplayRec) : SessionState :=
  { replay := true, replay_calls := replay_calls }

/-- `AgentSession.__exit__` up to its final `set_current_session(None)`
(modelled separately, see `exitAmbient`): set the run status, run the
compensation driver unless the session is in replay or the error is
`BudgetExceededError` with `compensate_on_budget_exceeded=False`, then
persist the final status. -/
def sessionExit (rt : AgentRuntime) (s : SessionState) (exc : Option Err) : SessionState :=
  match exc with
  | none => { s with status := .success }
  | some e =>
    let s := { s with status := .error, error := some (errMessage e) }
    let should_compensate := !s.replay && !(e.isBudget && !s.compensate_on_budget_exceeded)
    if should_compensate then runCompensations rt s else s

/-! ## Straight-line workflow bodies

A workflow body that is a straight-line sequence of step calls (as in the
spec's S1–S6 scenarios): each call runs through `execute_tool_call`, and
a raised exception aborts the remaining calls and propagates to
`__exit__`. -/

/-- One planned step call of a straight-line workflow body. -/
structure PlannedCall where
  tool_name : String
  func : StepFn
  args : List J := []
  kwargs : List (String × J) := []
  compensation_tool_name : Option String := none
  usageFn : Option (J → LLMUsage) := none

/-- Run the body calls in order, stopping at the first raised
exception. -/
def runBody (rt : AgentRuntime) : List PlannedCall → SessionState → SessionState × Option Err
  | [], s => (s, none)
  | c :: rest, s =>
    match executeToolCall rt s c.tool_name c.func c.args c.kwargs .forward
        c.compensation_tool_name none c.usageFn none with
    | (s', .ok _) => runBody rt rest s'
    | (s', .error e) => (s', some e)

/-- A full `with runtime.agent_session(...)` scope around a straight-line
body: enter, run the body, exit (with compensation on failure). -/
def runSession (rt : AgentRuntime) (budget_limit : Option ℚ)
    (compensate_on_budget_exceeded : Bool) (body : List PlannedCall) : SessionState :=
  let (s, exc) := runBody rt body (sessionEnter budget_limit compensate_on_budget_exceeded)
  sessionExit rt s exc

/-! ## Ambient context (`src/agent_relay/context.py`) and the step
wrapper (`src/agent_runtime/tooling.py`) -/

/-- `set_current_session(session)`: overwrite the ambient context slot;
the previous value is discarded, not stacked. -/
def setCurrentSession (v _prev : Option SessionState) : Option SessionState := v

/-- The slot update performed by `AgentSession.__enter__`. -/
def enterAmbient (s : SessionState) (slot : Option SessionState) : Option SessionState :=
  setCurrentSession (some s) slot

/-- The slot update performed in the `finally` of `AgentSession.__exit__`
on every exit path: `set_current_session(None)`. -/
def exitAmbient (slot : Option SessionState) : Option SessionState :=
  setCurrentSession none slot

/-- The wrapper returned by the `tool` decorator
(`src/agent_runtime/tooling.py`): outside any session it calls the
function directly; inside a session it routes through
`execute_tool_call`. -/
def toolWrapper (rt : AgentRuntime) (slot : Option SessionState) (tool_name : String)
    (func : StepFn) (args : List J) (kwargs : List (String × J)) :
    Option SessionState × Except Err J :=
  match slot with
  | none =>
    (none, match func args kwargs with
      | .ok out => .ok out
      | .error e => .error (.toolFailure e))
  | some session =>
    let (s', r) := executeToolCall rt session tool_name func args kwargs .forward
      none none none none
    (some s', r)
/-! ## Observables over the event trace -/

/-- The tools whose user-function bodies were invoked, with phases, in
invocation order. -/
def invokeEvents (evs : List Ev) : List (String × Phase) :=
  evs.filterMap fun e =>
    match e with
    | .invokeFunc t p => some (t, p)
    | _ => none

/-- How often a given tool's user function body ran in a given phase. -/
def invokeCount (evs : List Ev) (tool : String) (phase : Phase) : Nat :=
  (invokeEvents evs).count (tool, phase)

/-- The compensation-phase invocations, in order. -/
def compInvocations (evs : List Ev) : List String :=
  evs.filterMap fun e =>
    match e with
    | .invokeFunc t .compensation => some t
    | _ => none

/-- The sequence of status values written to one call row, oldest first
(the INSERT's initial status followed by every UPDATE). -/
def statusWrites (evs : List Ev) (call_id : Nat) : List Status :=
  evs.filterMap fun e =>
    match e with
    | .insertCall id _ _ _ st => if id = call_id then some st else none
    | .updateStatus id st => if id = call_id then some st else none
    | _ => none

/-- Whether any row was ever deleted. -/
def hasDelete (evs : List Ev) : Bool :=
  evs.any fun e =>
    match e with
    | .deleteCall _ => true
    | _ => false

/-- How many rows of the table match a `(tool, key, phase)` tuple. -/
def countRows (calls : List CallRow) (tool idem : String) (phase : Phase) : Nat :=
  (calls.filter (rowMatches tool idem phase)).length

/-- The rows of a given tool name (any key, any phase). -/
def rowsOfTool (calls : List CallRow) (tool : String) : List CallRow :=
  calls.filter fun r => decide (r.tool_name = tool)

/-! ## The sequence-reservation interleaving (`execute_tool_call`,
lines 330–375)

Per thread, the code performs three atomic actions against the shared
session and table:

1. `with self._seq_lock: next_seq_no = self.seq_no + 1` — read the shared
   counter under the lock into a thread-local;
2. the INSERT — fails on an existing `(tool, key, phase)` tuple
   (`IntegrityError` → the loser keeps `seq_no` untouched and waits);
3. `with self._seq_lock: self.seq_no = next_seq_no` — write the
   thread-local back under the lock.

The lock is released between action 1 and action 3, which is exactly what
this little machine makes explicit. -/

/-- One thread of the sequence-reservation protocol. `pc` counts the
atomic actions already performed (`3` = done, `4` = lost the race). -/
structure SeqThread where
  key : String
  pc : Nat := 0
  reserved : Nat := 0

/-- The shared state: the session's `seq_no`, the claimed rows
`(idempotency_key, seq_no)` of the `tool_calls` table, and the
threads. -/
structure SeqRaceState where
  seq_no : Nat := 0
  rows : List (String × Nat) := []
  threads : List SeqThread

/-- Run one atomic action of thread `tid`. -/
def seqStep (st : SeqRaceState) (tid : Nat) : SeqRaceState :=
  match st.threads.get? tid with
  | none => st
  | some t =>
    if t.pc = 0 then
      -- reserve under the lock: thread-local next_seq_no := seq_no + 1
      { st with threads := st.threads.set tid { t with reserved := st.seq_no + 1, pc := 1 } }
    else if t.pc = 1 then
      -- the INSERT: UNIQUE(run, tool, key, phase) accepts it iff the key is fresh
      if st.rows.any (fun r => decide (r.1 = t.key)) then
        { st with threads := st.threads.set tid { t with pc := 4 } }
      else
        { st with rows := st.rows ++ [(t.key, t.reserved)],
                  threads := st.threads.set tid { t with pc := 2 } }
    else if t.pc = 2 then
      -- advance under the lock: seq_no := thread-local next_seq_no
      { st with seq_no := t.reserved, threads := st.threads.set tid { t with pc := 3 } }
    else st

/-- Run a schedule (a list of thread ids, each executing its next atomic
action in turn). -/
def runSeqSchedule (threads : List SeqThread) (sched : List Nat) : SeqRaceState :=
  sched.foldl seqStep { threads := threads }

/-! ## Concrete scenarios from the spec -/

/-- The registry of the S3 saga scenario: forward steps `reserve`,
`place_order` (which raises), `send_receipt`, and the compensator
`refund` registered for `reserve` only. -/
def s3Runtime : AgentRuntime :=
  { tools := [("reserve", fun _ _ => .ok (.obj [("hold", .str "H:a@x:100")])),
              ("place_order", fun _ _ => .error "boom"),
              ("send_receipt", fun _ _ => .ok .null),
              ("refund", fun _ _ => .ok (.str "refunded"))],
    compensations := [("reserve", "refund")] }

/-- The S3 workflow body: `reserve` → `place_order` → `send_receipt`. -/
def s3Body : List PlannedCall :=
  [{ tool_name := "reserve", func := fun _ _ => .ok (.obj [("hold", .str "H:a@x:100")]),
     args := [.str "a@x", .int 100], compensation_tool_name := some "refund" },
   { tool_name := "place_order", func := fun _ _ => .error "boom" },
   { tool_name := "send_receipt", func := fun _ _ => .ok .null }]

/-- The final state of the S3 scenario. -/
def s3Final : SessionState := runSession s3Runtime none true s3Body

/-- A body whose single step reports LLM usage of cost `0.02` in a
session with `budget_limit = 0.01` (the S5 shape). -/
def budgetBody : List PlannedCall :=
  [{ tool_name := "llm_step", func := fun _ _ => .ok (.str "resp"),
     usageFn := some fun _ => { total_cost := mkRat 2 100 } }]

/-- The final state of the budget-overrun scenario. -/
def budgetFinal : SessionState := runSession { } (some (mkRat 1 100)) true budgetBody

/-- The status-write sequences that "inserted pending, finalized at most
once, with a success optionally overwritten by the budget-fold error"
allows for one call row. -/
def allowedWrites (l : List Status) : Prop :=
  l = [] ∨ l = [.pending] ∨ l = [.pending, .success] ∨ l = [.pending, .error] ∨
    l = [.pending, .success, .error]


/-- The tool names of the compensation-phase rows of the table, in
insertion order. -/
def compRows (calls : List CallRow) : List String :=
  (calls.filter fun r => decide (r.phase = Phase.compensation)).map (·.tool_name)


/-- The lifecycle invariant of the event trace: every call row's status
writes follow an allowed pattern, ids not yet allocated have no writes,
and nothing is ever deleted. -/
def LifecycleInv (s : SessionState) : Prop :=
  (∀ cid, allowedWrites (statusWrites s.events cid)) ∧
  (∀ cid, s.next_id ≤ cid → statusWrites s.events cid = []) ∧
  hasDelete s.events = false


/-! ## Lemmas about the model -/

theorem qAdd_eq (a b : ℚ) : qAdd a b = a + b := by
  have ha : ((a.den : ℚ)) ≠ 0 := Nat.cast_ne_zero.mpr a.den_nz
  have hb : ((b.den : ℚ)) ≠ 0 := Nat.cast_ne_zero.mpr b.den_nz
  rw [qAdd, Rat.mkRat_eq_div]
  push_cast
  conv_rhs => rw [← Rat.num_div_den a, ← Rat.num_div_den b]
  rw [div_add_div _ _ ha hb, mul_comm ((a.den : ℚ)) ((b.num : ℚ))]

theorem qMul_eq (a b : ℚ) : qMul a b = a * b := by
  rw [qMul, Rat.mkRat_eq_div]
  push_cast
  rw [← div_mul_div_comm, Rat.num_div_den, Rat.num_div_den]

mutual

theorem serializeJsonValue_eq : ∀ j : J, serializeJsonValue j = j
  | .null => rfl
  | .bool _ => rfl
  | .int _ => rfl
  | .str _ => rfl
  | .arr xs => by rw [serializeJsonValue, serializeJsonList_eq]
  | .obj kvs => by rw [serializeJsonValue, serializeJsonObj_eq]

theorem serializeJsonList_eq : ∀ xs : List J, serializeJsonList xs = xs
  | [] => rfl
  | x :: xs => by rw [serializeJsonList, serializeJsonValue_eq, serializeJsonList_eq]

theorem serializeJsonObj_eq : ∀ kvs : List (String × J), serializeJsonObj kvs = kvs
  | [] => rfl
  | (k, v) :: kvs => by rw [serializeJsonObj, serializeJsonValue_eq, serializeJsonObj_eq]

end
/-- `sha256hex` always produces 64 characters (8 words × 8 hex digits). -/
theorem sha256hex_length (m : List Nat) : (sha256hex m).length = 64 := rfl

/-! ## Claims -/

set_option maxRecDepth 1000000 in
/-- C9: The fingerprint of a call is a pure, deterministic 64-hex SHA-256
of a canonical serialization: fingerprints agree whenever the canonical
tagged forms agree, and the type tags keep the integer `1` and the string
`"1"` apart — at those concrete inputs the keys differ. -/
theorem fingerprint_stable_and_type_tagged :
    (∀ ns step args kwargs ns' step' args' kwargs',
        canonical_json (idemPayload ns step args kwargs)
          = canonical_json (idemPayload ns' step' args' kwargs') →
        idem_key ns step args kwargs = idem_key ns' step' args' kwargs') ∧
    idem_key "wf" "s" [.int 1] [] ≠ idem_key "wf" "s" [.str "1"] [] ∧
    (∀ ns step args kwargs, (idem_key ns step args kwargs).length = 64) := by
  refine ⟨?_, by decide, fun _ _ _ _ => sha256hex_length _⟩
  intro _ _ _ _ _ _ _ _ h
  unfold idem_key
  rw [h]

/-- C9 witness: the congruence part applied at equal concrete inputs. -/
theorem fingerprint_stable_witness :
    idem_key "wf" "s" [.int 1] [] = idem_key "wf" "s" [.int 1] [] :=
  fingerprint_stable_and_type_tagged.1 "wf" "s" [.int 1] [] "wf" "s" [.int 1] [] rfl

/-- C3: the claim is right and the code has a race: the session lock is
released between reserving `next_seq_no = seq_no + 1` and the advance
`seq_no = next_seq_no`, so under the interleaving
reserve₀, reserve₁, insert₀, advance₀, insert₁, advance₁ two concurrently
claimed calls both receive `seq_no = 1` — not the distinct, strictly
increasing numbers the claim promises.  Sequential execution does yield
1, 2, and a losing racer leaves the counter untouched. -/
theorem seq_lock_race_duplicates_seq_no :
    (runSeqSchedule [{ key := "k1" }, { key := "k2" }] [0, 1, 0, 0, 1, 1]).rows.map Prod.snd
        = [1, 1] ∧
    ¬ (((runSeqSchedule [{ key := "k1" }, { key := "k2" }] [0, 1, 0, 0, 1, 1]).rows.map
          Prod.snd).getD 0 0
        < ((runSeqSchedule [{ key := "k1" }, { key := "k2" }] [0, 1, 0, 0, 1, 1]).rows.map
          Prod.snd).getD 1 0) ∧
    (runSeqSchedule [{ key := "k1" }, { key := "k2" }] [0, 0, 0, 1, 1, 1]).rows.map Prod.snd
        = [1, 2] ∧
    (runSeqSchedule [{ key := "k1" }, { key := "k1" }] [0, 0, 0, 1, 1, 1]).seq_no = 1 := by
  refine ⟨by decide, by decide, by decide, by decide⟩

/-- C5: in the S3 scenario the run finishes with status=error, exactly
one `refund` call row with phase=compensation exists, no `send_receipt`
row is ever recorded, and `refund` is the only compensation-phase
invocation. -/
theorem s3_saga_rollback :
    s3Final.status = .error ∧
    ((rowsOfTool s3Final.calls "refund").filter fun r =>
        decide (r.phase = Phase.compensation)).length = 1 ∧
    (rowsOfTool s3Final.calls "send_receipt").length = 0 ∧
    compInvocations s3Final.events = ["refund"] := by
  refine ⟨by decide, by decide, by decide, by decide⟩

/-- C10: exiting a session scope sets the ambient current-session slot to
`None` on every exit path rather than restoring the previous value, so
after a nested session exits the outer session is not discoverable and a
wrapped step falls back to direct pass-through. -/
theorem session_exit_clears_ambient_slot :
    (∀ slot : Option SessionState, exitAmbient slot = none) ∧
    (∀ (outerS innerS : SessionState) (slot0 : Option SessionState),
      exitAmbient (enterAmbient innerS (enterAmbient outerS slot0)) = none ∧
      exitAmbient (enterAmbient innerS (enterAmbient outerS slot0)) ≠ some outerS) ∧
    (∀ (rt : AgentRuntime) (name : String) (f : StepFn) (args : List J)
        (kwargs : List (String × J)) (out : J), f args kwargs = .ok out →
      ∀ (outerS innerS : SessionState) (slot0 : Option SessionState),
        toolWrapper rt (exitAmbient (enterAmbient innerS (enterAmbient outerS slot0)))
          name f args kwargs = (none, .ok out)) := by
  refine ⟨fun _ => rfl, fun _ _ _ => ⟨rfl, by simp [exitAmbient, setCurrentSession]⟩, ?_⟩
  intro rt name f args kwargs out h outerS innerS slot0
  simp [toolWrapper, exitAmbient, enterAmbient, setCurrentSession, h]

/-- C10 witness: a concrete pass-through call after a nested exit. -/
theorem session_exit_clears_ambient_slot_witness :
    toolWrapper { } (exitAmbient (enterAmbient { } (enterAmbient { } none)))
      "t" (fun _ _ => .ok .null) [] [] = (none, .ok J.null) :=
  session_exit_clears_ambient_slot.2.2 { } "t" (fun _ _ => .ok .null) [] [] .null rfl { } { } none
/-- C7: after a UniqueViolation the caller polls the existing row every
`pending_poll_interval_s` (default 0.25 s) up to `pending_timeout_s`
(default 60 s): a success row returns the recorded output, an error row
raises with the recorded error string, a pending row past the deadline
raises a timeout, and an unreadable row raises the internal consistency
error; `execute_tool_call` enters exactly this loop when the claim's
tuple already exists. -/
theorem wait_for_existing_protocol :
    (({ } : AgentRuntime).pending_timeout_s = 60 ∧
      ({ } : AgentRuntime).pending_poll_interval_s = 1 / 4) ∧
    (∀ t i tool phase rest elapsed (row : CallRow), row.status = .success →
      waitForExistingLoop t i tool phase (some row :: rest) elapsed
        = some (.ok ((row.output.map serializeJsonValue).getD .null))) ∧
    (∀ t i tool phase rest elapsed (row : CallRow), row.status = .error →
      waitForExistingLoop t i tool phase (some row :: rest) elapsed
        = some (.error (.priorAttemptFailed (row.error.getD "None")))) ∧
    (∀ t i tool phase rest elapsed,
      waitForExistingLoop t i tool phase (none :: rest) elapsed
        = some (.error .rowMissing)) ∧
    (∀ t i tool phase rest elapsed (row : CallRow), row.status = .pending → elapsed > t →
      waitForExistingLoop t i tool phase (some row :: rest) elapsed
        = some (.error (.pendingTimeout tool phase))) ∧
    (∀ t i tool phase rest elapsed (row : CallRow), row.status = .pending → ¬ elapsed > t →
      waitForExistingLoop t i tool phase (some row :: rest) elapsed
        = waitForExistingLoop t i tool phase rest (elapsed + i)) ∧
    (∀ (rt : AgentRuntime) (s : SessionState) tool f args kwargs phase comp parent up ik,
      s.replay = false → ¬(phase = Phase.forward ∧ isBudgetExceeded s) →
      (findRow s.calls tool (computeIdempotencyKey tool args (ik.getD kwargs) phase)
          phase).isSome →
      executeToolCall rt s tool f args kwargs phase comp parent up ik
        = (s, (waitForExistingLoop rt.pending_timeout_s rt.pending_poll_interval_s tool phase
            (List.replicate (waitFuel rt.pending_timeout_s rt.pending_poll_interval_s)
              (findRow s.calls tool (computeIdempotencyKey tool args (ik.getD kwargs) phase)
                phase))
            0).getD (.error (.pendingTimeout tool phase)))) := by
  refine ⟨⟨by rw [show ({ } : AgentRuntime).pending_timeout_s = mkRat 60 1 from rfl,
      Rat.mkRat_eq_div]; norm_num,
    by rw [show ({ } : AgentRuntime).pending_poll_interval_s = mkRat 1 4 from rfl,
      Rat.mkRat_eq_div]; norm_num⟩, ?_, ?_, ?_, ?_, ?_, ?_⟩
  · intro t i tool phase rest elapsed row h
    rw [waitForExistingLoop]
    simp [h]
  · intro t i tool phase rest elapsed row h
    rw [waitForExistingLoop]
    simp [h]
  · intro t i tool phase rest elapsed
    rw [waitForExistingLoop]
  · intro t i tool phase rest elapsed row h h2
    rw [waitForExistingLoop]
    simp [h, h2]
  · intro t i tool phase rest elapsed row h h2
    rw [waitForExistingLoop]
    simp [h, h2, qAdd_eq]
  · intro rt s tool f args kwargs phase comp parent up ik h1 h2 h3
    obtain ⟨r0, hr⟩ := Option.isSome_iff_exists.mp h3
    rw [executeToolCall, h1]
    simp only [Bool.false_eq_true, if_false, if_neg h2]
    rw [hr]
    dsimp only
    rw [waitForDuplicate, hr]

/-- C7 witness: the four outcomes at concrete inputs, and a concrete
duplicate claim entering the wait loop. -/
theorem wait_for_existing_protocol_witness :
    waitForExistingLoop 60 (1 / 4) "t" .forward
        [some { id := 0, seq_no := 1, tool_name := "t", idempotency_key := "k",
                phase := .forward, status := .success, output := some (.str "v") }] 0
      = some (.ok (.str "v")) ∧
    waitForExistingLoop 60 (1 / 4) "t" .forward
        [some { id := 0, seq_no := 1, tool_name := "t", idempotency_key := "k",
                phase := .forward, status := .error, error := some "boom" }] 0
      = some (.error (.priorAttemptFailed "boom")) ∧
    waitForExistingLoop 60 (1 / 4) "t" .forward [none] 0 = some (.error .rowMissing) ∧
    waitForExistingLoop 60 (1 / 4) "t" .forward
        [some { id := 0, seq_no := 1, tool_name := "t", idempotency_key := "k",
                phase := .forward, status := .pending }] 61
      = some (.error (.pendingTimeout "t" .forward)) ∧
    waitForExistingLoop 60 (1 / 4) "t" .forward
        (some { id := 0, seq_no := 1, tool_name := "t", idempotency_key := "k",
                phase := .forward, status := .pending } :: []) 0
      = waitForExistingLoop 60 (1 / 4) "t" .forward [] (0 + 1 / 4) := by
  refine ⟨wait_for_existing_protocol.2.1 _ _ _ _ _ _ _ rfl,
    wait_for_existing_protocol.2.2.1 _ _ _ _ _ _ _ rfl,
    wait_for_existing_protocol.2.2.2.1 _ _ _ _ _ _,
    wait_for_existing_protocol.2.2.2.2.1 _ _ _ _ _ _ _ rfl (by norm_num),
    wait_for_existing_protocol.2.2.2.2.2.1 _ _ _ _ _ _ _ rfl (by norm_num)⟩
/-- `_replay_step` only advances the cursor: rows and events are
untouched on every branch. -/
theorem replayStep_preserves (s : SessionState) (tool : String) (phase : Phase) :
    (replayStep s tool phase).1.events = s.events ∧
    (replayStep s tool phase).1.calls = s.calls := by
  rw [replayStep]
  rcases s.replay_calls.get? s.replay_index with _ | rec
  · simp
  · dsimp only
    split_ifs <;> simp

/-- C8: in replay mode each step call defers to `_replay_step`, returning
the recorded output at the cursor without invoking the user function and
without writing any row or event; it raises when the cursor is at or past
the end of the list, when the record's (step, phase) differ from the
call's (the error carries both pairs), or when the record's status is not
success. -/
theorem replay_mode_characterization :
    (∀ (rt : AgentRuntime) (s : SessionState) tool f args kwargs phase comp parent up ik,
      s.replay = true →
      executeToolCall rt s tool f args kwargs phase comp parent up ik
          = replayStep s tool phase ∧
      (executeToolCall rt s tool f args kwargs phase comp parent up ik).1.events = s.events ∧
      (executeToolCall rt s tool f args kwargs phase comp parent up ik).1.calls = s.calls) ∧
    (∀ (s : SessionState) tool phase, s.replay_calls.length ≤ s.replay_index →
      replayStep s tool phase = (s, .error .replayExceeded)) ∧
    (∀ (s : SessionState) tool phase rec, s.replay_calls.get? s.replay_index = some rec →
      rec.tool_name ≠ tool ∨ rec.phase ≠ phase →
      replayStep s tool phase = ({ s with replay_index := s.replay_index + 1 },
        .error (.replayMismatch tool phase rec.tool_name rec.phase))) ∧
    (∀ (s : SessionState) tool phase rec, s.replay_calls.get? s.replay_index = some rec →
      rec.tool_name = tool → rec.phase = phase → rec.status ≠ .success →
      replayStep s tool phase = ({ s with replay_index := s.replay_index + 1 },
        .error (.replayNotSuccess (some rec.status)))) ∧
    (∀ (s : SessionState) tool phase rec, s.replay_calls.get? s.replay_index = some rec →
      rec.tool_name = tool → rec.phase = phase → rec.status = .success →
      replayStep s tool phase = ({ s with replay_index := s.replay_index + 1 },
        .ok (rec.output.getD .null))) := by
  refine ⟨?_, ?_, ?_, ?_, ?_⟩
  · intro rt s tool f args kwargs phase comp parent up ik h
    have hexec : executeToolCall rt s tool f args kwargs phase comp parent up ik
        = replayStep s tool phase := by
      rw [executeToolCall, h]
      simp
    rw [hexec]
    exact ⟨rfl, (replayStep_preserves s tool phase).1, (replayStep_preserves s tool phase).2⟩
  · intro s tool phase h
    rw [replayStep, List.get?_eq_none.mpr h]
  · intro s tool phase rec hget h2
    rw [replayStep, hget]
    simp only [if_pos h2]
  · intro s tool phase rec hget ht hp hs
    rw [replayStep, hget]
    dsimp only
    rw [if_neg (by simp [ht, hp]), if_pos hs]
  · intro s tool phase rec hget ht hp hs
    rw [replayStep, hget]
    dsimp only
    rw [if_neg (by simp [ht, hp]), if_neg (by simp [hs])]

/-- C8 witness: a concrete replay session exercising the defer, the
exhausted cursor, a mismatch, a non-success record and a success
record. -/
theorem replay_mode_characterization_witness :
    executeToolCall { } (sessionEnterReplay []) "t" (fun _ _ => .ok .null) [] [] .forward
        none none none none
      = replayStep (sessionEnterReplay []) "t" .forward ∧
    replayStep (sessionEnterReplay []) "t" .forward
      = (sessionEnterReplay [], .error .replayExceeded) ∧
    replayStep (sessionEnterReplay [{ tool_name := "a", phase := .forward, status := .success }])
        "b" .forward
      = ({ sessionEnterReplay [{ tool_name := "a", phase := .forward, status := .success }] with
            replay_index := 1 },
         .error (.replayMismatch "b" .forward "a" .forward)) ∧
    replayStep (sessionEnterReplay [{ tool_name := "a", phase := .forward, status := .error }])
        "a" .forward
      = ({ sessionEnterReplay [{ tool_name := "a", phase := .forward, status := .error }] with
            replay_index := 1 },
         .error (.replayNotSuccess (some .error))) ∧
    replayStep (sessionEnterReplay
          [{ tool_name := "a", phase := .forward, status := .success, output := some (.str "v") }])
        "a" .forward
      = ({ sessionEnterReplay
            [{ tool_name := "a", phase := .forward, status := .success,
               output := some (.str "v") }] with replay_index := 1 },
         .ok (.str "v")) :=
  ⟨(replay_mode_characterization.1 { } (sessionEnterReplay []) "t" (fun _ _ => .ok .null)
      [] [] .forward none none none none rfl).1,
   replay_mode_characterization.2.1 (sessionEnterReplay []) "t" .forward (by decide),
   replay_mode_characterization.2.2.1
     (sessionEnterReplay [{ tool_name := "a", phase := .forward, status := .success }])
     "b" .forward { tool_name := "a", phase := .forward, status := .success } rfl
     (by simp),
   replay_mode_characterization.2.2.2.1
     (sessionEnterReplay [{ tool_name := "a", phase := .forward, status := .error }])
     "a" .forward { tool_name := "a", phase := .forward, status := .error } rfl rfl rfl
     (by simp),
   replay_mode_characterization.2.2.2.2
     (sessionEnterReplay
       [{ tool_name := "a", phase := .forward, status := .success, output := some (.str "v") }])
     "a" .forward
     { tool_name := "a", phase := .forward, status := .success, output := some (.str "v") }
     rfl rfl rfl rfl⟩
/-! ## Projection lemmas for the engine's state transformers -/

theorem statusWrites_append (a b : List Ev) (c : Nat) :
    statusWrites (a ++ b) c = statusWrites a c ++ statusWrites b c :=
  List.filterMap_append a b _

theorem hasDelete_append (a b : List Ev) :
    hasDelete (a ++ b) = (hasDelete a || hasDelete b) :=
  List.any_append

theorem compInvocations_append (a b : List Ev) :
    compInvocations (a ++ b) = compInvocations a ++ compInvocations b :=
  List.filterMap_append a b _

theorem invokeEvents_append (a b : List Ev) :
    invokeEvents (a ++ b) = invokeEvents a ++ invokeEvents b :=
  List.filterMap_append a b _

theorem claimInsert_events (s : SessionState) (t i : String) (p : Phase) (par : Option Nat) :
    (claimInsert s t i p par).events
      = s.events ++ [.insertCall s.next_id t p (s.seq_no + 1) .pending] := rfl

theorem claimInsert_next_id (s : SessionState) (t i : String) (p : Phase) (par : Option Nat) :
    (claimInsert s t i p par).next_id = s.next_id + 1 := rfl

theorem pushFrame_events (s : SessionState) (p : Phase) (t : String) (c : Option String)
    (a : List J) (k : List (String × J)) : (pushFrame s p t c a k).events = s.events := by
  rw [pushFrame]
  split <;> rfl

theorem pushFrame_next_id (s : SessionState) (p : Phase) (t : String) (c : Option String)
    (a : List J) (k : List (String × J)) : (pushFrame s p t c a k).next_id = s.next_id := by
  rw [pushFrame]
  split <;> rfl

theorem pushFrame_calls (s : SessionState) (p : Phase) (t : String) (c : Option String)
    (a : List J) (k : List (String × J)) : (pushFrame s p t c a k).calls = s.calls := by
  rw [pushFrame]
  split <;> rfl

theorem markInvoked_events (s : SessionState) (t : String) (p : Phase) :
    (markInvoked s t p).events = s.events ++ [.invokeFunc t p] := rfl

theorem markInvoked_next_id (s : SessionState) (t : String) (p : Phase) :
    (markInvoked s t p).next_id = s.next_id := rfl

theorem markInvoked_calls (s : SessionState) (t : String) (p : Phase) :
    (markInvoked s t p).calls = s.calls := rfl

theorem finalizeSuccess_events (s : SessionState) (cid : Nat) (out : J) :
    (finalizeSuccess s cid out).events = s.events ++ [.updateStatus cid .success] := rfl

theorem finalizeSuccess_next_id (s : SessionState) (cid : Nat) (out : J) :
    (finalizeSuccess s cid out).next_id = s.next_id := rfl

theorem finalizeError_events (s : SessionState) (cid : Nat) (m : String) :
    (finalizeError s cid m).events = s.events ++ [.updateStatus cid .error] := rfl

theorem finalizeError_next_id (s : SessionState) (cid : Nat) (m : String) :
    (finalizeError s cid m).next_id = s.next_id := rfl

theorem recordUsageTotals_fst_events (s : SessionState) (u : LLMUsage) :
    ((recordUsageTotals s u).1).events = s.events := by
  rw [recordUsageTotals]
  split <;> rfl

theorem recordUsageTotals_fst_next_id (s : SessionState) (u : LLMUsage) :
    ((recordUsageTotals s u).1).next_id = s.next_id := by
  rw [recordUsageTotals]
  split <;> rfl

/-- `_replay_step` only advances the cursor: rows, events and the id
counter are untouched on every branch. -/
theorem replayStep_state (s : SessionState) (tool : String) (phase : Phase) :
    (replayStep s tool phase).1.events = s.events ∧
    (replayStep s tool phase).1.calls = s.calls ∧
    (replayStep s tool phase).1.next_id = s.next_id := by
  rw [replayStep]
  rcases s.replay_calls.get? s.replay_index with _ | rec
  · exact ⟨rfl, rfl, rfl⟩
  · dsimp only
    split_ifs <;> exact ⟨rfl, rfl, rfl⟩

/-! ## Branch equations for `executeToolCall` -/

theorem exec_replay_eq (rt : AgentRuntime) (s : SessionState) (tool : String) (f : StepFn)
    (args : List J) (kwargs : List (String × J)) (phase : Phase) (comp : Option String)
    (parent : Option Nat) (up : Option (J → LLMUsage)) (ik : Option (List (String × J)))
    (h1 : s.replay = true) :
    executeToolCall rt s tool f args kwargs phase comp parent up ik
      = replayStep s tool phase := by
  rw [executeToolCall, h1]
  simp

theorem exec_budget_eq (rt : AgentRuntime) (s : SessionState) (tool : String) (f : StepFn)
    (args : List J) (kwargs : List (String × J)) (phase : Phase) (comp : Option String)
    (parent : Option Nat) (up : Option (J → LLMUsage)) (ik : Option (List (String × J)))
    (h1 : s.replay = false) (h2 : phase = Phase.forward ∧ isBudgetExceeded s) :
    executeToolCall rt s tool f args kwargs phase comp parent up ik
      = (s, .error (.budgetExceeded s.total_cost s.budget_limit)) := by
  rw [executeToolCall, h1]
  simp only [Bool.false_eq_true, if_false]
  rw [if_pos h2]

theorem exec_wait_eq (rt : AgentRuntime) (s : SessionState) (tool : String) (f : StepFn)
    (args : List J) (kwargs : List (String × J)) (phase : Phase) (comp : Option String)
    (parent : Option Nat) (up : Option (J → LLMUsage)) (ik : Option (List (String × J)))
    (r0 : CallRow) (h1 : s.replay = false) (h2 : ¬(phase = Phase.forward ∧ isBudgetExceeded s))
    (hf : findRow s.calls tool (computeIdempotencyKey tool args (ik.getD kwargs) phase) phase
      = some r0) :
    executeToolCall rt s tool f args kwargs phase comp parent up ik
      = (s, waitForDuplicate rt s tool
          (computeIdempotencyKey tool args (ik.getD kwargs) phase) phase) := by
  rw [executeToolCall, h1]
  simp only [Bool.false_eq_true, if_false, if_neg h2]
  rw [hf]

theorem exec_claim_err_eq (rt : AgentRuntime) (s : SessionState) (tool : String) (f : StepFn)
    (args : List J) (kwargs : List (String × J)) (phase : Phase) (comp : Option String)
    (parent : Option Nat) (up : Option (J → LLMUsage)) (ik : Option (List (String × J)))
    (emsg : String) (h1 : s.replay = false)
    (h2 : ¬(phase = Phase.forward ∧ isBudgetExceeded s))
    (hf : findRow s.calls tool (computeIdempotencyKey tool args (ik.getD kwargs) phase) phase
      = none)
    (hfe : f args kwargs = .error emsg) :
    executeToolCall rt s tool f args kwargs phase comp parent up ik
      = (finalizeError (markInvoked (pushFrame
            (claimInsert s tool (computeIdempotencyKey tool args (ik.getD kwargs) phase)
              phase parent) phase tool comp args kwargs) tool phase) s.next_id emsg,
         .error (.toolFailure emsg)) := by
  rw [executeToolCall, h1]
  simp only [Bool.false_eq_true, if_false, if_neg h2]
  rw [hf]
  dsimp only
  rw [hfe]

theorem exec_claim_ok_eq (rt : AgentRuntime) (s : SessionState) (tool : String) (f : StepFn)
    (args : List J) (kwargs : List (String × J)) (phase : Phase) (comp : Option String)
    (parent : Option Nat) (ik : Option (List (String × J))) (out : J)
    (h1 : s.replay = false) (h2 : ¬(phase = Phase.forward ∧ isBudgetExceeded s))
    (hf : findRow s.calls tool (computeIdempotencyKey tool args (ik.getD kwargs) phase) phase
      = none)
    (hfo : f args kwargs = .ok out) :
    executeToolCall rt s tool f args kwargs phase comp parent none ik
      = (finalizeSuccess (markInvoked (pushFrame
            (claimInsert s tool (computeIdempotencyKey tool args (ik.getD kwargs) phase)
              phase parent) phase tool comp args kwargs) tool phase) s.next_id out,
         .ok out) := by
  rw [executeToolCall, h1]
  simp only [Bool.false_eq_true, if_false, if_neg h2]
  rw [hf]
  dsimp only
  rw [hfo]

theorem exec_claim_usage_eq (rt : AgentRuntime) (s : SessionState) (tool : String) (f : StepFn)
    (args : List J) (kwargs : List (String × J)) (phase : Phase) (comp : Option String)
    (parent : Option Nat) (parser : J → LLMUsage) (ik : Option (List (String × J))) (out : J)
    (h1 : s.replay = false) (h2 : ¬(phase = Phase.forward ∧ isBudgetExceeded s))
    (hf : findRow s.calls tool (computeIdempotencyKey tool args (ik.getD kwargs) phase) phase
      = none)
    (hfo : f args kwargs = .ok out) :
    executeToolCall rt s tool f args kwargs phase comp parent (some parser) ik
      = (match recordUsageTotals (finalizeSuccess (markInvoked (pushFrame
            (claimInsert s tool (computeIdempotencyKey tool args (ik.getD kwargs) phase)
              phase parent) phase tool comp args kwargs) tool phase) s.next_id out)
            (parser out) with
         | (s5, none) => (s5, .ok out)
         | (s5, some msg) =>
           (finalizeError s5 s.next_id msg,
            .error (.budgetExceeded s5.total_cost s5.budget_limit))) := by
  rw [executeToolCall, h1]
  simp only [Bool.false_eq_true, if_false, if_neg h2]
  rw [hf]
  dsimp only
  rw [hfo]
/-! ## The call-row lifecycle invariant -/

theorem lifecycleInv_congr (s s' : SessionState) (hev : s'.events = s.events)
    (hnid : s.next_id ≤ s'.next_id) (h : LifecycleInv s) : LifecycleInv s' := by
  refine ⟨fun c => ?_, fun c hc => ?_, ?_⟩
  · rw [hev]; exact h.1 c
  · rw [hev]; exact h.2.1 c (le_trans hnid hc)
  · rw [hev]; exact h.2.2

theorem lifecycleInv_extend (s s' : SessionState) (L : List Ev) (h : LifecycleInv s)
    (hev : s'.events = s.events ++ L) (hnid : s.next_id < s'.next_id)
    (hother : ∀ c, ¬ c = s.next_id → statusWrites L c = [])
    (hall : allowedWrites (statusWrites L s.next_id))
    (hdel : hasDelete L = false) : LifecycleInv s' := by
  refine ⟨fun c => ?_, fun c hc => ?_, ?_⟩
  · rw [hev, statusWrites_append]
    by_cases hc : c = s.next_id
    · subst hc
      rw [h.2.1 _ (le_refl _), List.nil_append]
      exact hall
    · rw [hother c hc, List.append_nil]
      exact h.1 c
  · rw [hev, statusWrites_append, h.2.1 c (by omega), hother c (by omega)]
    rfl
  · rw [hev, hasDelete_append, h.2.2, hdel]
    rfl

theorem exec_lifecycleInv (rt : AgentRuntime) (s : SessionState) (tool : String) (f : StepFn)
    (args : List J) (kwargs : List (String × J)) (phase : Phase) (comp : Option String)
    (parent : Option Nat) (up : Option (J → LLMUsage)) (ik : Option (List (String × J)))
    (h : LifecycleInv s) :
    LifecycleInv (executeToolCall rt s tool f args kwargs phase comp parent up ik).1 ∧
    s.next_id ≤ (executeToolCall rt s tool f args kwargs phase comp parent up ik).1.next_id := by
  by_cases h1 : s.replay = true
  · rw [exec_replay_eq rt s tool f args kwargs phase comp parent up ik h1]
    have hst := replayStep_state s tool phase
    exact ⟨lifecycleInv_congr s _ hst.1 (le_of_eq hst.2.2.symm) h, le_of_eq hst.2.2.symm⟩
  · replace h1 : s.replay = false := by simpa using h1
    by_cases h2 : phase = Phase.forward ∧ isBudgetExceeded s
    · rw [exec_budget_eq rt s tool f args kwargs phase comp parent up ik h1 h2]
      exact ⟨h, le_refl _⟩
    · rcases hfind : findRow s.calls tool (computeIdempotencyKey tool args (ik.getD kwargs)
          phase) phase with _ | r0
      ·
        rcases hfe : f args kwargs with emsg | out
        ·
          rw [exec_claim_err_eq rt s tool f args kwargs phase comp parent up ik emsg
            h1 h2 hfind hfe]
          constructor
          · refine lifecycleInv_extend s _
              [.insertCall s.next_id tool phase (s.seq_no + 1) .pending,
               .invokeFunc tool phase, .updateStatus s.next_id .error] h ?_ ?_ ?_ ?_ rfl
            · rw [finalizeError_events, markInvoked_events, pushFrame_events,
                claimInsert_events]
              simp
            · rw [finalizeError_next_id, markInvoked_next_id, pushFrame_next_id,
                claimInsert_next_id]
              omega
            · intro c hc
              simp [statusWrites, hc]
              omega
            · simp [statusWrites, allowedWrites]
          · rw [finalizeError_next_id, markInvoked_next_id, pushFrame_next_id,
              claimInsert_next_id]
            omega
        ·
          rcases up with _ | parser
          ·
            rw [exec_claim_ok_eq rt s tool f args kwargs phase comp parent ik out
              h1 h2 hfind hfe]
            constructor
            · refine lifecycleInv_extend s _
                [.insertCall s.next_id tool phase (s.seq_no + 1) .pending,
                 .invokeFunc tool phase, .updateStatus s.next_id .success] h ?_ ?_ ?_ ?_ rfl
              · rw [finalizeSuccess_events, markInvoked_events, pushFrame_events,
                  claimInsert_events]
                simp
              · rw [finalizeSuccess_next_id, markInvoked_next_id, pushFrame_next_id,
                  claimInsert_next_id]
                omega
              · intro c hc
                simp [statusWrites, hc]
                omega
              · simp [statusWrites, allowedWrites]
            · rw [finalizeSuccess_next_id, markInvoked_next_id, pushFrame_next_id,
                claimInsert_next_id]
              omega
          ·
            rw [exec_claim_usage_eq rt s tool f args kwargs phase comp parent parser ik out
              h1 h2 hfind hfe]
            rcases hrec : recordUsageTotals (finalizeSuccess (markInvoked (pushFrame
                (claimInsert s tool (computeIdempotencyKey tool args (ik.getD kwargs) phase)
                  phase parent) phase tool comp args kwargs) tool phase) s.next_id out)
                (parser out) with ⟨s5, msg5⟩
            have hs5ev : s5.events = s.events ++
                [.insertCall s.next_id tool phase (s.seq_no + 1) .pending,
                 .invokeFunc tool phase, .updateStatus s.next_id .success] := by
              have := recordUsageTotals_fst_events (finalizeSuccess (markInvoked (pushFrame
                (claimInsert s tool (computeIdempotencyKey tool args (ik.getD kwargs) phase)
                  phase parent) phase tool comp args kwargs) tool phase) s.next_id out)
                (parser out)
              rw [hrec] at this
              rw [this, finalizeSuccess_events, markInvoked_events, pushFrame_events,
                claimInsert_events]
              simp
            have hs5id : s5.next_id = s.next_id + 1 := by
              have := recordUsageTotals_fst_next_id (finalizeSuccess (markInvoked (pushFrame
                (claimInsert s tool (computeIdempotencyKey tool args (ik.getD kwargs) phase)
                  phase parent) phase tool comp args kwargs) tool phase) s.next_id out)
                (parser out)
              rw [hrec] at this
              rw [this, finalizeSuccess_next_id, markInvoked_next_id, pushFrame_next_id,
                claimInsert_next_id]
            rcases msg5 with _ | msg
            ·
              constructor
              · refine lifecycleInv_extend s s5
                  [.insertCall s.next_id tool phase (s.seq_no + 1) .pending,
                   .invokeFunc tool phase, .updateStatus s.next_id .success] h hs5ev
                  (by omega) ?_ ?_ rfl
                · intro c hc
                  simp [statusWrites, hc]
                  omega
                · simp [statusWrites, allowedWrites]
              · dsimp only
                omega
            ·
              constructor
              · refine lifecycleInv_extend s _
                  [.insertCall s.next_id tool phase (s.seq_no + 1) .pending,
                   .invokeFunc tool phase, .updateStatus s.next_id .success,
                   .updateStatus s.next_id .error] h ?_ ?_ ?_ ?_ rfl
                · rw [finalizeError_events, hs5ev]
                  simp
                · rw [finalizeError_next_id, hs5id]
                  omega
                · intro c hc
                  simp [statusWrites, hc]
                  omega
                · simp [statusWrites, allowedWrites]
              · rw [finalizeError_next_id, hs5id]
                omega
      ·
        rw [exec_wait_eq rt s tool f args kwargs phase comp parent up ik r0 h1 h2 hfind]
        exact ⟨h, le_refl _⟩

theorem runCompensationsFrom_lifecycleInv (rt : AgentRuntime) :
    ∀ (frames : List ExecutedStep) (s : SessionState), LifecycleInv s →
      LifecycleInv (runCompensationsFrom rt frames s)
  | [], _, h => h
  | frame :: rest, s, h => by
    rw [runCompensationsFrom]
    rcases frame.compensation_tool_name with _ | cname
    · exact runCompensationsFrom_lifecycleInv rt rest s h
    · dsimp only
      rcases getTool rt cname with _ | comp_fn
      · exact runCompensationsFrom_lifecycleInv rt rest s h
      · exact runCompensationsFrom_lifecycleInv rt rest _
          (exec_lifecycleInv rt s cname comp_fn frame.args frame.kwargs .compensation
            none none none none h).1

theorem runBody_lifecycleInv (rt : AgentRuntime) :
    ∀ (body : List PlannedCall) (s : SessionState), LifecycleInv s →
      LifecycleInv (runBody rt body s).1
  | [], _, h => h
  | c :: rest, s, h => by
    rw [runBody]
    have hex := exec_lifecycleInv rt s c.tool_name c.func c.args c.kwargs .forward
      c.compensation_tool_name none c.usageFn none h
    rcases hrun : executeToolCall rt s c.tool_name c.func c.args c.kwargs .forward
        c.compensation_tool_name none c.usageFn none with ⟨s', r⟩
    rw [hrun] at hex
    rcases r with e | v
    · exact hex.1
    · exact runBody_lifecycleInv rt rest s' hex.1

theorem sessionExit_lifecycleInv (rt : AgentRuntime) (s : SessionState) (exc : Option Err)
    (h : LifecycleInv s) : LifecycleInv (sessionExit rt s exc) := by
  rcases exc with _ | e
  · rw [sessionExit]
    exact lifecycleInv_congr s _ rfl (le_refl _) h
  · rw [sessionExit]
    dsimp only
    split
    · exact runCompensationsFrom_lifecycleInv rt _ _
        (lifecycleInv_congr s _ rfl (le_refl _) h)
    · exact lifecycleInv_congr s _ rfl (le_refl _) h

theorem sessionEnter_lifecycleInv (b : Option ℚ) (c : Bool) :
    LifecycleInv (sessionEnter b c) :=
  ⟨fun _ => Or.inl rfl, fun _ _ => rfl, rfl⟩
set_option maxRecDepth 1000000 in
/-- C2 counterexample: with `budget_limit = 0.01` and a single step whose
usage parser reports cost `0.02`, the step's call row is inserted as
pending, finalized to success, and then — when `_record_usage_totals`
raises `BudgetExceededError` inside the same try block — overwritten to
error.  Its status-write sequence is `[pending, success, error]`, so the
row does not transition exactly once as the claim states. -/
theorem call_row_overwritten_after_budget_raise :
    statusWrites budgetFinal.events 0 = [.pending, .success, .error] ∧
    ¬ (statusWrites budgetFinal.events 0 = [.pending] ∨
       statusWrites budgetFinal.events 0 = [.pending, .success] ∨
       statusWrites budgetFinal.events 0 = [.pending, .error]) := by
  refine ⟨by decide, by decide⟩

/-- C2 (amended): every call row is inserted with status=pending and
never deleted; its status is finalized at most once to success or error,
except that a row already finalized to success may be overwritten once to
error (which happens when folding the step's usage into the session
totals raises BudgetExceeded after the success finalize).  Over every
straight-line session the write sequence of every row is one of `[]`,
`[pending]`, `[pending, success]`, `[pending, error]`,
`[pending, success, error]`. -/
theorem call_row_lifecycle (rt : AgentRuntime) (budget : Option ℚ) (compB : Bool)
    (body : List PlannedCall) :
    (∀ cid, allowedWrites (statusWrites (runSession rt budget compB body).events cid)) ∧
    hasDelete (runSession rt budget compB body).events = false := by
  rcases hrb : runBody rt body (sessionEnter budget compB) with ⟨s1, exc⟩
  have hinv1 : LifecycleInv s1 := by
    have hh := runBody_lifecycleInv rt body (sessionEnter budget compB)
      (sessionEnter_lifecycleInv budget compB)
    rw [hrb] at hh
    exact hh
  have h2 : runSession rt budget compB body = sessionExit rt s1 exc := by
    rw [runSession, hrb]
  rw [h2]
  have h3 := sessionExit_lifecycleInv rt s1 exc hinv1
  exact ⟨h3.1, h3.2.2⟩
/-- The wait-for-existing path resolves immediately when the existing row
is already a success: the recorded output is adopted. -/
theorem waitForDuplicate_success (rt : AgentRuntime) (s : SessionState) (tool idem : String)
    (phase : Phase) (row : CallRow) (hf : findRow s.calls tool idem phase = some row)
    (hst : row.status = .success) :
    waitForDuplicate rt s tool idem phase
      = .ok ((row.output.map serializeJsonValue).getD .null) := by
  rw [waitForDuplicate, hf]
  have hn : waitFuel rt.pending_timeout_s rt.pending_poll_interval_s
      = (waitFuel rt.pending_timeout_s rt.pending_poll_interval_s - 1) + 1 := by
    rw [waitFuel]
    omega
  rw [hn, List.replicate_succ, waitForExistingLoop]
  simp [hst]

/-- The wait-for-existing path raises the prior error when the existing
row already failed. -/
theorem waitForDuplicate_error (rt : AgentRuntime) (s : SessionState) (tool idem : String)
    (phase : Phase) (row : CallRow) (hf : findRow s.calls tool idem phase = some row)
    (hst : row.status = .error) :
    waitForDuplicate rt s tool idem phase
      = .error (.priorAttemptFailed (row.error.getD "None")) := by
  rw [waitForDuplicate, hf]
  have hn : waitFuel rt.pending_timeout_s rt.pending_poll_interval_s
      = (waitFuel rt.pending_timeout_s rt.pending_poll_interval_s - 1) + 1 := by
    rw [waitFuel]
    omega
  rw [hn, List.replicate_succ, waitForExistingLoop]
  simp [hst]

set_option maxHeartbeats 1000000 in
/-- C1: calling the same step twice with identical arguments and phase in
one session invokes the user function body exactly once: the first call
claims, runs and records; the second call's claim hits the UNIQUE tuple,
is served by wait-for-existing without writing anything, and both calls
return the same recorded output; exactly one row exists for the
`(run, step, key, phase)` tuple. -/
theorem idempotent_retry (rt : AgentRuntime) (tool : String) (f : StepFn) (args : List J)
    (kwargs : List (String × J)) (out : J) (hok : f args kwargs = .ok out) :
    (executeToolCall rt (sessionEnter none true) tool f args kwargs .forward
        none none none none).2 = .ok out ∧
    (executeToolCall rt (executeToolCall rt (sessionEnter none true) tool f args kwargs
        .forward none none none none).1 tool f args kwargs .forward
        none none none none).2 = .ok out ∧
    (executeToolCall rt (executeToolCall rt (sessionEnter none true) tool f args kwargs
        .forward none none none none).1 tool f args kwargs .forward
        none none none none).1.events
      = (executeToolCall rt (sessionEnter none true) tool f args kwargs .forward
        none none none none).1.events ∧
    invokeCount (executeToolCall rt (executeToolCall rt (sessionEnter none true) tool f args
        kwargs .forward none none none none).1 tool f args kwargs .forward
        none none none none).1.events tool .forward = 1 ∧
    countRows (executeToolCall rt (executeToolCall rt (sessionEnter none true) tool f args
        kwargs .forward none none none none).1 tool f args kwargs .forward
        none none none none).1.calls tool
      (computeIdempotencyKey tool args kwargs .forward) .forward = 1 := by
  have h1 : (sessionEnter none true).replay = false := rfl
  have hbud : ¬(Phase.forward = Phase.forward ∧ isBudgetExceeded (sessionEnter none true)) := by
    simp [isBudgetExceeded, sessionEnter]
  have he1 := exec_claim_ok_eq rt (sessionEnter none true) tool f args kwargs .forward
    none none none out h1 hbud rfl hok
  rw [he1]
  have hrow : (finalizeSuccess (markInvoked (pushFrame
      (claimInsert (sessionEnter none true) tool
        (computeIdempotencyKey tool args ((none : Option (List (String × J))).getD kwargs)
          .forward) .forward none) .forward tool none args kwargs) tool .forward)
      (sessionEnter none true).next_id out).calls
      = [{ id := 0, seq_no := 1, tool_name := tool,
           idempotency_key := computeIdempotencyKey tool args kwargs .forward,
           phase := .forward, status := .success,
           output := some (serializeJsonValue out) }] := by
    simp [finalizeSuccess, markInvoked, pushFrame, claimInsert, sessionEnter]
  have hev : (finalizeSuccess (markInvoked (pushFrame
      (claimInsert (sessionEnter none true) tool
        (computeIdempotencyKey tool args ((none : Option (List (String × J))).getD kwargs)
          .forward) .forward none) .forward tool none args kwargs) tool .forward)
      (sessionEnter none true).next_id out).events
      = [.insertCall 0 tool .forward 1 .pending, .invokeFunc tool .forward,
         .updateStatus 0 .success] := by
    simp [finalizeSuccess, markInvoked, pushFrame, claimInsert, sessionEnter]
  have h1' : (finalizeSuccess (markInvoked (pushFrame
      (claimInsert (sessionEnter none true) tool
        (computeIdempotencyKey tool args ((none : Option (List (String × J))).getD kwargs)
          .forward) .forward none) .forward tool none args kwargs) tool .forward)
      (sessionEnter none true).next_id out).replay = false := rfl
  have hbud' : ¬(Phase.forward = Phase.forward ∧ isBudgetExceeded (finalizeSuccess
      (markInvoked (pushFrame (claimInsert (sessionEnter none true) tool
        (computeIdempotencyKey tool args ((none : Option (List (String × J))).getD kwargs)
          .forward) .forward none) .forward tool none args kwargs) tool .forward)
      (sessionEnter none true).next_id out)) := by
    simp [isBudgetExceeded, finalizeSuccess, markInvoked, pushFrame, claimInsert, sessionEnter]
  have hfind1 : findRow (finalizeSuccess (markInvoked (pushFrame
      (claimInsert (sessionEnter none true) tool
        (computeIdempotencyKey tool args ((none : Option (List (String × J))).getD kwargs)
          .forward) .forward none) .forward tool none args kwargs) tool .forward)
      (sessionEnter none true).next_id out).calls tool
      (computeIdempotencyKey tool args ((none : Option (List (String × J))).getD kwargs)
        .forward) .forward
      = some ({ id := 0, seq_no := 1, tool_name := tool,
                idempotency_key := computeIdempotencyKey tool args kwargs .forward,
                phase := .forward, status := .success,
                output := some (serializeJsonValue out) } : CallRow) := by
    rw [hrow]
    simp [findRow, rowMatches]
  have he2 := exec_wait_eq rt _ tool f args kwargs .forward none none none none _
    h1' hbud' hfind1
  rw [he2]
  have hw := waitForDuplicate_success rt _ tool
    (computeIdempotencyKey tool args ((none : Option (List (String × J))).getD kwargs)
      .forward) .forward _ hfind1 rfl
  rw [hw]
  refine ⟨rfl, ?_, rfl, ?_, ?_⟩
  · simp [serializeJsonValue_eq]
  · rw [hev]
    simp [invokeCount, invokeEvents]
  · rw [hrow]
    simp [countRows, rowMatches]

/-- C1 witness: the idempotent-retry property at a concrete step. -/
theorem idempotent_retry_witness :
    (executeToolCall { } (sessionEnter none true) "t" (fun _ _ => .ok (.str "v")) [] [] .forward
        none none none none).2 = .ok (.str "v") ∧
    (executeToolCall { } (executeToolCall { } (sessionEnter none true) "t"
        (fun _ _ => .ok (.str "v")) [] [] .forward none none none none).1 "t"
        (fun _ _ => .ok (.str "v")) [] [] .forward none none none none).2 = .ok (.str "v") ∧
    (executeToolCall { } (executeToolCall { } (sessionEnter none true) "t"
        (fun _ _ => .ok (.str "v")) [] [] .forward none none none none).1 "t"
        (fun _ _ => .ok (.str "v")) [] [] .forward none none none none).1.events
      = (executeToolCall { } (sessionEnter none true) "t" (fun _ _ => .ok (.str "v")) [] []
        .forward none none none none).1.events ∧
    invokeCount (executeToolCall { } (executeToolCall { } (sessionEnter none true) "t"
        (fun _ _ => .ok (.str "v")) [] [] .forward none none none none).1 "t"
        (fun _ _ => .ok (.str "v")) [] [] .forward none none none none).1.events "t"
        .forward = 1 ∧
    countRows (executeToolCall { } (executeToolCall { } (sessionEnter none true) "t"
        (fun _ _ => .ok (.str "v")) [] [] .forward none none none none).1 "t"
        (fun _ _ => .ok (.str "v")) [] [] .forward none none none none).1.calls "t"
      (computeIdempotencyKey "t" [] [] .forward) .forward = 1 :=
  idempotent_retry { } "t" (fun _ _ => .ok (.str "v")) [] [] (.str "v") rfl
/-! ## Compensation order -/

/-- Finalizing a row never changes which tool/phase the rows carry. -/
theorem compRows_map_preserving (f : CallRow → CallRow)
    (hf : ∀ r, (f r).phase = r.phase ∧ (f r).tool_name = r.tool_name) :
    ∀ calls : List CallRow, compRows (calls.map f) = compRows calls := by
  intro calls
  induction calls with
  | nil => rfl
  | cons r rest ih =>
    simp only [compRows] at ih ⊢
    rw [List.map_cons]
    by_cases hp : r.phase = Phase.compensation
    · rw [List.filter_cons_of_pos (by simp [(hf r).1, hp]),
        List.filter_cons_of_pos (by simp [hp]),
        List.map_cons, List.map_cons, (hf r).2, ih]
    · rw [List.filter_cons_of_neg (by simp [(hf r).1, hp]),
        List.filter_cons_of_neg (by simp [hp]), ih]

theorem compRows_append (a b : List CallRow) :
    compRows (a ++ b) = compRows a ++ compRows b := by
  rw [compRows, List.filter_append, List.map_append]
  rfl

/-- One compensation-phase `execute_tool_call` whose `(tool, key, phase)`
tuple is fresh appends exactly one compensation row and one invocation of
`cname`, whatever the compensator function returns. -/
theorem exec_comp_effect (rt : AgentRuntime) (s : SessionState) (cname : String)
    (comp_fn : StepFn) (args : List J) (kwargs : List (String × J))
    (hrep : s.replay = false) (hfresh : cname ∉ compRows s.calls) :
    compInvocations (executeToolCall rt s cname comp_fn args kwargs .compensation
        none none none none).1.events
      = compInvocations s.events ++ [cname] ∧
    (executeToolCall rt s cname comp_fn args kwargs .compensation
        none none none none).1.replay = false ∧
    compRows (executeToolCall rt s cname comp_fn args kwargs .compensation
        none none none none).1.calls = compRows s.calls ++ [cname] := by
  have h2 : ¬(Phase.compensation = Phase.forward ∧ isBudgetExceeded s) := by simp
  have hfind : findRow s.calls cname
      (computeIdempotencyKey cname args ((none : Option (List (String × J))).getD kwargs)
        .compensation) .compensation = none := by
    rw [findRow, List.find?_eq_none]
    intro r hr
    rw [rowMatches]
    by_cases hp : r.phase = Phase.compensation
    · have htn : r.tool_name ≠ cname := by
        intro heq
        exact hfresh (List.mem_map.mpr ⟨r, List.mem_filter.mpr ⟨hr, by simp [hp]⟩, heq⟩)
      simp [htn]
    · simp [hp]
  rcases hfe : comp_fn args kwargs with emsg | out
  · rw [exec_claim_err_eq rt s cname comp_fn args kwargs .compensation none none none none
      emsg hrep h2 hfind hfe]
    refine ⟨?_, hrep, ?_⟩
    · rw [finalizeError_events, markInvoked_events, pushFrame_events, claimInsert_events]
      simp [compInvocations_append, compInvocations]
    · rw [finalizeError]
      dsimp only
      rw [compRows_map_preserving _ (by intro r; constructor <;> split <;> rfl),
        markInvoked_calls, pushFrame_calls]
      rw [show (claimInsert s cname
          (computeIdempotencyKey cname args
            ((none : Option (List (String × J))).getD kwargs) .compensation)
          .compensation none).calls = s.calls ++
          [{ id := s.next_id, seq_no := s.seq_no + 1, tool_name := cname,
             idempotency_key := computeIdempotencyKey cname args
               ((none : Option (List (String × J))).getD kwargs) .compensation,
             phase := .compensation, status := .pending, parent := none }] from rfl]
      rw [compRows_append]
      simp [compRows]
  · rw [exec_claim_ok_eq rt s cname comp_fn args kwargs .compensation none none none out
      hrep h2 hfind hfe]
    refine ⟨?_, hrep, ?_⟩
    · rw [finalizeSuccess_events, markInvoked_events, pushFrame_events, claimInsert_events]
      simp [compInvocations_append, compInvocations]
    · rw [finalizeSuccess]
      dsimp only
      rw [compRows_map_preserving _ (by intro r; constructor <;> split <;> rfl),
        markInvoked_calls, pushFrame_calls]
      rw [show (claimInsert s cname
          (computeIdempotencyKey cname args
            ((none : Option (List (String × J))).getD kwargs) .compensation)
          .compensation none).calls = s.calls ++
          [{ id := s.next_id, seq_no := s.seq_no + 1, tool_name := cname,
             idempotency_key := computeIdempotencyKey cname args
               ((none : Option (List (String × J))).getD kwargs) .compensation,
             phase := .compensation, status := .pending, parent := none }] from rfl]
      rw [compRows_append]
      simp [compRows]

/-- The compensation loop visits the frame list in order, invoking each
frame's registered (and resolvable) compensator once, whatever the
individual compensators return. -/
theorem runCompensationsFrom_order (rt : AgentRuntime) :
    ∀ (frames : List ExecutedStep) (s : SessionState), s.replay = false →
      (frames.filterMap (·.compensation_tool_name)).Pairwise (· ≠ ·) →
      (∀ n ∈ frames.filterMap (·.compensation_tool_name), n ∉ compRows s.calls) →
      compInvocations (runCompensationsFrom rt frames s).events
        = compInvocations s.events ++ frames.filterMap (fun fr =>
            fr.compensation_tool_name.bind fun n =>
              if (getTool rt n).isSome then some n else none)
  | [], s, _, _, _ => by simp [runCompensationsFrom]
  | frame :: rest, s, hrep, hdist, hmem => by
    rw [runCompensationsFrom]
    rcases hc : frame.compensation_tool_name with _ | cname
    · rw [runCompensationsFrom_order rt rest s hrep
        (by simpa [hc] using hdist) (by simpa [hc] using hmem)]
      simp [hc]
    · dsimp only
      rcases hg : getTool rt cname with _ | comp_fn
      · rw [runCompensationsFrom_order rt rest s hrep
          (by simp only [List.filterMap_cons, hc] at hdist; exact (List.pairwise_cons.mp hdist).2)
          (by intro n hn; exact hmem n (by simp only [List.filterMap_cons, hc]; exact List.mem_cons_of_mem _ hn))]
        simp [hc, hg]
      · have heff := exec_comp_effect rt s cname comp_fn frame.args frame.kwargs hrep
          (hmem cname (by simp [hc]))
        rcases hex : executeToolCall rt s cname comp_fn frame.args frame.kwargs .compensation
            none none none none with ⟨s', r⟩
        rw [hex] at heff
        dsimp only at heff
        dsimp only
        rw [hex]
        dsimp only
        rw [runCompensationsFrom_order rt rest s' heff.2.1
          (by simp only [List.filterMap_cons, hc] at hdist; exact (List.pairwise_cons.mp hdist).2)
          ?_]
        · rw [heff.1]
          simp [hc, hg, List.append_assoc]
        · intro n hn
          have hne : cname ≠ n := by
            simp only [List.filterMap_cons, hc] at hdist
            exact (List.pairwise_cons.mp hdist).1 n hn
          have hold : n ∉ compRows s.calls :=
            hmem n (by simp only [List.filterMap_cons, hc]; exact List.mem_cons_of_mem _ hn)
          rw [heff.2.2]
          simp [hold, hne.symm]

/-- C4: on workflow failure the compensation driver walks the
executed-step frames in exact reverse order, invoking each frame's
registered compensator as a phase=compensation call; a compensator that
raises is swallowed, so every remaining frame is still visited — the
invocation sequence equals the reverse frame order filtered to registered
compensators, for arbitrary (including failing) compensator functions. -/
theorem compensation_reverse_order (rt : AgentRuntime) (s : SessionState)
    (hrep : s.replay = false)
    (hdist : (s.executed_steps.reverse.filterMap (·.compensation_tool_name)).Pairwise (· ≠ ·))
    (hmem : ∀ n ∈ s.executed_steps.reverse.filterMap (·.compensation_tool_name),
      n ∉ compRows s.calls) :
    compInvocations (runCompensations rt s).events
      = compInvocations s.events ++
        s.executed_steps.reverse.filterMap (fun fr =>
          fr.compensation_tool_name.bind fun n =>
            if (getTool rt n).isSome then some n else none) := by
  rw [runCompensations]
  exact runCompensationsFrom_order rt s.executed_steps.reverse s hrep hdist hmem
/-- C4 witness: three frames, the latest-executed one with a compensator
that raises; both registered compensators are still invoked, in reverse
frame order. -/
theorem compensation_reverse_order_witness :
    compInvocations (runCompensations
        { tools := [("c1", fun _ _ => .ok .null), ("c2", fun _ _ => .error "bad")] }
        { executed_steps := [⟨"s1", some "c1", [], []⟩, ⟨"s2", none, [], []⟩,
            ⟨"s3", some "c2", [], []⟩] }).events
      = compInvocations ({ executed_steps := [⟨"s1", some "c1", [], []⟩, ⟨"s2", none, [], []⟩,
            ⟨"s3", some "c2", [], []⟩] } : SessionState).events ++
        (({ executed_steps := [⟨"s1", some "c1", [], []⟩, ⟨"s2", none, [], []⟩,
            ⟨"s3", some "c2", [], []⟩] } : SessionState).executed_steps.reverse.filterMap
          fun fr => fr.compensation_tool_name.bind fun n =>
            if (getTool { tools := [("c1", fun _ _ => .ok .null),
                ("c2", fun _ _ => .error "bad")] } n).isSome then some n else none) :=
  compensation_reverse_order
    { tools := [("c1", fun _ _ => .ok .null), ("c2", fun _ _ => .error "bad")] }
    { executed_steps := [⟨"s1", some "c1", [], []⟩, ⟨"s2", none, [], []⟩,
        ⟨"s3", some "c2", [], []⟩] }
    rfl (by simp) (by simp [compRows])

set_option maxHeartbeats 1000000 in
/-- C6: BudgetExceeded is raised at the start of a forward call when
`total_cost` already strictly exceeds `budget_limit`; `_record_usage_totals`
accumulates `total_cost` with 6-decimal rounding and raises exactly when
the incremented total exceeds the cap, in which case the step call that
had already finalized success re-raises BudgetExceeded from within;
compensation-phase calls are not budget-checked before execution — an
over-budget session still runs the compensator body. -/
theorem budget_cap_checks :
    (∀ (rt : AgentRuntime) (s : SessionState) tool (f : StepFn) args kwargs comp par up ik b,
      s.replay = false → s.budget_limit = some b → s.total_cost > b →
      executeToolCall rt s tool f args kwargs .forward comp par up ik
        = (s, .error (.budgetExceeded s.total_cost s.budget_limit))) ∧
    (∀ (s : SessionState) (u : LLMUsage),
      (recordUsageTotals s u).1.total_cost = round6 (s.total_cost + u.total_cost) ∧
      ((recordUsageTotals s u).2 ≠ none ↔ isBudgetExceeded (recordUsageTotals s u).1 = true) ∧
      (∀ b, s.budget_limit = some b →
        (isBudgetExceeded (recordUsageTotals s u).1 = true ↔
          round6 (s.total_cost + u.total_cost) > b))) ∧
    (∀ (rt : AgentRuntime) (s : SessionState) tool (f : StepFn) args kwargs comp par parser
        ik out,
      s.replay = false → ¬(Phase.forward = Phase.forward ∧ isBudgetExceeded s) →
      findRow s.calls tool (computeIdempotencyKey tool args (Option.getD ik kwargs) .forward)
        .forward = none →
      f args kwargs = .ok out →
      ((recordUsageTotals (finalizeSuccess (markInvoked (pushFrame
          (claimInsert s tool (computeIdempotencyKey tool args (Option.getD ik kwargs)
            .forward) .forward par) .forward tool comp args kwargs) tool .forward)
          s.next_id out) (parser out)).2).isSome →
      (executeToolCall rt s tool f args kwargs .forward comp par (some parser) ik).2
        = .error (.budgetExceeded
            (recordUsageTotals (finalizeSuccess (markInvoked (pushFrame
              (claimInsert s tool (computeIdempotencyKey tool args (Option.getD ik kwargs)
                .forward) .forward par) .forward tool comp args kwargs) tool .forward)
              s.next_id out) (parser out)).1.total_cost
            (recordUsageTotals (finalizeSuccess (markInvoked (pushFrame
              (claimInsert s tool (computeIdempotencyKey tool args (Option.getD ik kwargs)
                .forward) .forward par) .forward tool comp args kwargs) tool .forward)
              s.next_id out) (parser out)).1.budget_limit)) ∧
    (∀ (rt : AgentRuntime) (s : SessionState) tool (f : StepFn) args kwargs comp par ik out b,
      s.replay = false → s.budget_limit = some b → s.total_cost > b →
      findRow s.calls tool (computeIdempotencyKey tool args (Option.getD ik kwargs)
        .compensation) .compensation = none →
      f args kwargs = .ok out →
      (executeToolCall rt s tool f args kwargs .compensation comp par none ik).2 = .ok out ∧
      invokeCount (executeToolCall rt s tool f args kwargs .compensation comp par
          none ik).1.events tool .compensation
        = invokeCount s.events tool .compensation + 1) := by
  refine ⟨?_, ?_, ?_, ?_⟩
  · intro rt s tool f args kwargs comp par up ik b h1 hb hgt
    exact exec_budget_eq rt s tool f args kwargs .forward comp par up ik h1
      ⟨rfl, by rw [isBudgetExceeded, hb]; exact decide_eq_true hgt⟩
  · intro s u
    refine ⟨?_, ?_, ?_⟩
    · rw [recordUsageTotals]
      split <;> simp [qAdd_eq]
    · rw [recordUsageTotals]
      dsimp only
      split
      · rename_i hcond
        simp only [ne_eq, reduceCtorEq, not_false_eq_true, true_iff]
        exact hcond
      · rename_i hcond
        simp only [ne_eq, not_true_eq_false, false_iff]
        simpa using hcond
    · intro b hb
      rw [recordUsageTotals]
      dsimp only
      split <;>
        simp [isBudgetExceeded, hb, qAdd_eq]
  · intro rt s tool f args kwargs comp par parser ik out h1 h2 hfind hok hsome
    rw [exec_claim_usage_eq rt s tool f args kwargs .forward comp par parser ik out
      h1 h2 hfind hok]
    obtain ⟨msg, hmsg⟩ := Option.isSome_iff_exists.mp hsome
    rcases hrec : recordUsageTotals (finalizeSuccess (markInvoked (pushFrame
        (claimInsert s tool (computeIdempotencyKey tool args (Option.getD ik kwargs)
          .forward) .forward par) .forward tool comp args kwargs) tool .forward)
        s.next_id out) (parser out) with ⟨s5, m5⟩
    rw [hrec] at hmsg
    dsimp only at hmsg
    subst hmsg
    rfl
  · intro rt s tool f args kwargs comp par ik out b h1 hb hgt hfind hok
    have h2 : ¬(Phase.compensation = Phase.forward ∧ isBudgetExceeded s) := by simp
    rw [exec_claim_ok_eq rt s tool f args kwargs .compensation comp par ik out h1 h2
      hfind hok]
    refine ⟨rfl, ?_⟩
    rw [finalizeSuccess_events, markInvoked_events, pushFrame_events, claimInsert_events,
      invokeCount, invokeCount, invokeEvents_append, invokeEvents_append,
      invokeEvents_append]
    simp [invokeEvents, List.count_append, List.count_cons]
set_option maxRecDepth 1000000 in
/-- C6 witness: an over-budget session rejects a forward call before
execution; folding usage cost 0.02 against cap 0.01 rounds, raises, and
surfaces BudgetExceeded out of the step call; the same over-budget
session still executes a compensation-phase body. -/
theorem budget_cap_checks_witness :
    executeToolCall { }
        ({ budget_limit := some (mkRat 1 100), total_cost := mkRat 2 100 } : SessionState)
        "t" (fun _ _ => .ok .null) [] [] .forward none none none none
      = (({ budget_limit := some (mkRat 1 100), total_cost := mkRat 2 100 } : SessionState),
         .error (.budgetExceeded (mkRat 2 100) (some (mkRat 1 100)))) ∧
    (recordUsageTotals ({ budget_limit := some (mkRat 1 100) } : SessionState)
        { total_cost := mkRat 2 100 }).1.total_cost
      = round6 ((0 : ℚ) + (mkRat 2 100 : ℚ)) ∧
    (executeToolCall { } (sessionEnter (some (mkRat 1 100)) true) "t"
        (fun _ _ => .ok (.str "v")) [] [] .forward none none
        (some fun _ => { total_cost := mkRat 2 100 }) none).2
      = .error (.budgetExceeded
          (recordUsageTotals (finalizeSuccess (markInvoked (pushFrame
            (claimInsert (sessionEnter (some (mkRat 1 100)) true) "t"
              (computeIdempotencyKey "t" []
                (Option.getD (none : Option (List (String × J))) []) .forward) .forward none)
            .forward "t" none [] []) "t" .forward)
            (sessionEnter (some (mkRat 1 100)) true).next_id (.str "v"))
            ((fun _ => ({ total_cost := mkRat 2 100 } : LLMUsage)) (J.str "v"))).1.total_cost
          (recordUsageTotals (finalizeSuccess (markInvoked (pushFrame
            (claimInsert (sessionEnter (some (mkRat 1 100)) true) "t"
              (computeIdempotencyKey "t" []
                (Option.getD (none : Option (List (String × J))) []) .forward) .forward none)
            .forward "t" none [] []) "t" .forward)
            (sessionEnter (some (mkRat 1 100)) true).next_id (.str "v"))
            ((fun _ => ({ total_cost := mkRat 2 100 } : LLMUsage)) (J.str "v"))).1.budget_limit) ∧
    (executeToolCall { }
        ({ budget_limit := some (mkRat 1 100), total_cost := mkRat 2 100 } : SessionState)
        "c" (fun _ _ => .ok .null) [] [] .compensation none none none none).2 = .ok .null :=
  ⟨budget_cap_checks.1 { } _ "t" (fun _ _ => .ok .null) [] [] none none none none
      (mkRat 1 100) rfl rfl (by decide),
   (budget_cap_checks.2.1 ({ budget_limit := some (mkRat 1 100) } : SessionState)
      { total_cost := mkRat 2 100 }).1,
   budget_cap_checks.2.2.1 { } (sessionEnter (some (mkRat 1 100)) true) "t"
      (fun _ _ => .ok (.str "v")) [] [] none none (fun _ => { total_cost := mkRat 2 100 })
      none (.str "v") rfl (by decide) rfl rfl (by decide),
   (budget_cap_checks.2.2.2 { }
      ({ budget_limit := some (mkRat 1 100), total_cost := mkRat 2 100 } : SessionState)
      "c" (fun _ _ => .ok .null) [] []
      none none none .null (mkRat 1 100) rfl rfl (by decide) rfl rfl).1⟩

end AgentTrail
